import Mathlib

/-!
# Verification of the PIC32 Ethernet MAC descriptor-ring engine

A shallow embedding of the descriptor-list core of
`src/firmware/src/config/pic32mz_w1_eth_wifi_freertos/driver/ethmac/src/dynamic/drv_ethmac_lib.c`.

Descriptor nodes are modelled by their field contents; the four descriptor
lists (TX-free, TX-busy, RX-free, RX-busy) are modelled as Lean lists of node
contents, ordered head to tail, exactly the traversal order of the singly
linked lists of the C code (`DRV_ETHMAC_SingleListHeadRemove` /
`DRV_ETHMAC_SingleListTailAdd` at the bottom of the file fix the queue
semantics of the `DRV_ETHMAC_LIB_List*` operations).  The in-place descriptor
copy of `_EthAppendBusyList` (`*tail = *head`) is rendered as the
corresponding update of the list of contents: the former sentinel slot takes
the content of the new list's head while keeping its position in the chain.

The hardware register facade is modelled by the observable effects the code
produces through it: a counter of `DRV_ETH_RxBufferCountDecrement` calls and
flags recording that the head descriptor addresses were programmed and the
TX/RX engines enabled.
-/

set_option autoImplicit false

namespace EthMacLib

/-- The header word of a hardware descriptor (`DRV_ETHMAC_DCPT_NODE.hwDcpt.hdr`):
the hardware bits EOWN/NPV/SOP/EOP/bCount and the software-defined bits
sticky/rx_nack/rx_wack/kv0, all living in the same 32-bit word `hdr.w`. -/
structure DcptHdr where
  EOWN : Bool
  NPV : Bool
  SOP : Bool
  EOP : Bool
  sticky : Bool
  rx_nack : Bool
  rx_wack : Bool
  kv0 : Bool
  bCount : Nat
  deriving Repr, DecidableEq, Inhabited

/-- The all-zero header word (`hdr.w = 0`). -/
def zeroHdr : DcptHdr :=
  { EOWN := false, NPV := false, SOP := false, EOP := false, sticky := false,
    rx_nack := false, rx_wack := false, kv0 := false, bCount := 0 }

/-- A descriptor node content: header word, attached buffer physical address
(`pEDBuff`, 0 when no buffer is attached) and the completion statistics block
(opaque to this core, carried as a value). -/
structure DcptNode where
  hdr : DcptHdr
  pEDBuff : Nat
  stat : Nat
  deriving Repr, DecidableEq, Inhabited

/-- Modelled from the spec: the address-translation facade (spec section 6;
the `IS_KVA`/`KVA_TO_PA`/`PA_TO_KVA*` platform macros are not part of src/).
Virtual addresses are 32-bit; the kernel windows start at `0x80000000`
(KSEG0, cache-coherent window, `0x80000000 up to 0x9FFFFFFF`) and the physical
address is the offset into the 512MB window. -/
def IS_KVA (v : Nat) : Bool := decide (0x80000000 ≤ v ∧ v < 0x100000000)

/-- Modelled from the spec: membership in the KSEG0 (cached) window. -/
def IS_KVA0 (v : Nat) : Bool := decide (0x80000000 ≤ v ∧ v < 0xA0000000)

/-- Modelled from the spec: virtual-to-physical translation (`v & 0x1FFFFFFF`). -/
def KVA_TO_PA (v : Nat) : Nat := v % 0x20000000

/-- Modelled from the spec: physical-to-virtual translation into KSEG0. -/
def PA_TO_KVA0 (pa : Nat) : Nat := pa + 0x80000000

/-- Modelled from the spec: physical-to-virtual translation into KSEG1. -/
def PA_TO_KVA1 (pa : Nat) : Nat := pa + 0xA0000000

/-- Embeds `DRV_ETHMAC_RESULT` (the result codes used by this core). -/
inductive DRV_ETHMAC_RESULT where
  | RES_OK
  | RES_NO_DESCRIPTORS
  | RES_NO_PACKET
  | RES_PACKET_QUEUED
  | RES_USPACE_ERR
  | RES_RX_PKT_SPLIT_ERR
  deriving Repr, DecidableEq, Inhabited

/-- Embeds `DRV_ETHMAC_DCPT_TYPE`: the direction selector for the pool operations.
`TYPE_ALL` stands for any value that is neither `DRV_ETHMAC_DCPT_TYPE_TX` nor
`DRV_ETHMAC_DCPT_TYPE_RX` (the pool add/remove functions recognize only those
two). -/
inductive DRV_ETHMAC_DCPT_TYPE where
  | TYPE_TX
  | TYPE_RX
  | TYPE_ALL
  deriving Repr, DecidableEq, Inhabited

/-- The state of one MAC instance (`DRV_ETHMAC_INSTANCE_DCPT.mData`): the four
descriptor lists plus the observable effects on the hardware register facade.
`rxBuffDecs` counts the `DRV_ETH_RxBufferCountDecrement` calls issued;
`txDescAddrSet`/`rxDescAddrSet` record that the head descriptor address
register was programmed; `txEnabled`/`rxEnabled` record TXRTS/RXEN. -/
structure MacState where
  txFree : List DcptNode
  txBusy : List DcptNode
  rxFree : List DcptNode
  rxBusy : List DcptNode
  rxBuffDecs : Nat
  txDescAddrSet : Bool
  rxDescAddrSet : Bool
  txEnabled : Bool
  rxEnabled : Bool
  deriving Repr, DecidableEq, Inhabited

/-- The `while((pN=DRV_ETHMAC_LIB_ListRemoveHead(pNewList)))` loop of
`_EthAppendBusyList`: each remaining node of the new list is appended to the
busy list's tail and, for an RX append, one pending-buffer-counter decrement
is issued per node whose `rx_nack` flag is clear. -/
def _EthAppendLoop (rxAck : Bool) : List DcptNode → List DcptNode → Nat → List DcptNode × Nat
  | busy, [], decs => (busy, decs)
  | busy, pN :: rest, decs =>
      _EthAppendLoop rxAck (busy ++ [pN]) rest
        (decs + (if rxAck && !pN.hdr.rx_nack then 1 else 0))

/-- Stage of `_EthAppendBusyList` up to (but not including) its final
`tail->hwDcpt.hdr.EOWN=1` flip and the associated RX acknowledge: the head of
the new list is removed and its EOWN cleared (`head->hwDcpt.hdr.EOWN=0`), the
remaining new nodes are appended behind the old tail, the old sentinel slot
takes the content of the new head (`*tail=*head`, preserving the slot address
hardware may reference), and the vacated head slot is zeroed
(`hdr.w=0; pEDBuff=0`) and appended as the new sentinel. -/
def _EthAppendStaged (busy newList : List DcptNode) (rxAck : Bool) (decs : Nat) :
    List DcptNode × Nat :=
  match newList with
  | [] => (busy, decs)
  | head :: rest =>
    let head0 : DcptNode := { head with hdr := { head.hdr with EOWN := false } }
    let (busy1, decs1) := _EthAppendLoop rxAck busy rest decs
    let busy2 := busy1.set (busy.length - 1) head0
    let sentinel : DcptNode := { head0 with hdr := zeroHdr, pEDBuff := 0 }
    (busy2 ++ [sentinel], decs1)

/-- Embeds `_EthAppendBusyList`: appends a prepared new list to a live busy list.
After the staged relinking, the former sentinel slot (now holding the new
head's content) is flipped to hardware ownership as the final step, and for an
RX append the late pending-buffer acknowledge for that boundary node is
issued unless its `rx_nack` flag is set.  Returns the new busy list contents
and the updated decrement counter. -/
def _EthAppendBusyList (busy newList : List DcptNode) (rxAck : Bool) (decs : Nat) :
    List DcptNode × Nat :=
  match newList with
  | [] => (busy, decs)
  | head :: rest =>
    let (busy3, decs1) := _EthAppendStaged busy (head :: rest) rxAck decs
    let headOwn : DcptNode := { head with hdr := { head.hdr with EOWN := true } }
    let busy4 := busy3.set (busy.length - 1) headOwn
    (busy4, decs1 + (if rxAck && !head.hdr.rx_nack then 1 else 0))

/-- Modelled from the spec: the injected allocator facade (spec section 6,
`allocate(count, size, context) -> pointer-or-null`; the allocator itself is
not part of src/).  It is modelled by the number of allocations that will
still succeed (`budget`); a successful allocation yields one zero-initialized
descriptor node. -/
def allocDcpt (budget : Nat) : Option DcptNode × Nat :=
  match budget with
  | 0 => (none, 0)
  | Nat.succ b => (some { hdr := zeroHdr, pEDBuff := 0, stat := 0 }, b)

/-- The `while(nDescriptors--)` creation loop of
`DRV_ETHMAC_LibDescriptorsPoolAdd`: allocates up to `n` nodes onto the tail
of the free list, stopping early when the allocator fails; returns the free
list, the remaining allocator budget and the number created. -/
def poolAddLoop : Nat → Nat → List DcptNode → Nat → List DcptNode × Nat × Nat
  | 0, budget, fList, nCreated => (fList, budget, nCreated)
  | Nat.succ n, budget, fList, nCreated =>
    match allocDcpt budget with
    | (none, b) => (fList, b, nCreated)
    | (some pDcpt, b) => poolAddLoop n b (fList ++ [pDcpt]) (nCreated + 1)

/-- The direction-independent body of `DRV_ETHMAC_LibDescriptorsPoolAdd`:
if the busy list is empty (first-ever call for this direction) one extra node
is allocated and seated alone in the busy list as the initial sentinel (a
failed sentinel allocation returns 0 at once); then the creation loop runs.
Returns `(nCreated, freeList, busyList, budget)`. -/
def poolAddLists (fList bList : List DcptNode) (nDescriptors budget : Nat) :
    Nat × List DcptNode × List DcptNode × Nat :=
  if bList.isEmpty then
    match allocDcpt budget with
    | (none, b) => (0, fList, bList, b)
    | (some pDcpt, b) =>
      let (fList1, b1, nCreated) := poolAddLoop nDescriptors b fList 0
      (nCreated, fList1, [pDcpt], b1)
  else
    let (fList1, b1, nCreated) := poolAddLoop nDescriptors budget fList 0
    (nCreated, fList1, bList, b1)

/-- Embeds `DRV_ETHMAC_LibDescriptorsPoolAdd`: a null allocator or an unrecognized
direction returns 0 without touching anything; otherwise the selected
direction's lists are grown.  Returns `(nCreated, state, budget)`. -/
def DRV_ETHMAC_LibDescriptorsPoolAdd (s : MacState) (nDescriptors : Nat)
    (dType : DRV_ETHMAC_DCPT_TYPE) (fAllocNull : Bool) (budget : Nat) :
    Nat × MacState × Nat :=
  if fAllocNull then (0, s, budget)
  else
    match dType with
    | .TYPE_TX =>
      let (n, f, b, bud) := poolAddLists s.txFree s.txBusy nDescriptors budget
      (n, { s with txFree := f, txBusy := b }, bud)
    | .TYPE_RX =>
      let (n, f, b, bud) := poolAddLists s.rxFree s.rxBusy nDescriptors budget
      (n, { s with rxFree := f, rxBusy := b }, bud)
    | .TYPE_ALL => (0, s, budget)

/-- The `while(nDescriptors--)` removal loop of
`DRV_ETHMAC_LibDescriptorsPoolRemove`: removes up to `n` nodes from the head
of the free list (releasing each through the injected freer), stopping when
the list is exhausted. -/
def poolRemoveLoop : Nat → List DcptNode → Nat → List DcptNode × Nat
  | 0, l, removed => (l, removed)
  | Nat.succ n, l, removed =>
    match l with
    | [] => ([], removed)
    | _ :: rest => poolRemoveLoop n rest (removed + 1)

/-- Helper of `markSopEop`: marks EOP on the last node of a list. -/
def markEopTail : List DcptNode → List DcptNode
  | [] => []
  | [n] => [{ n with hdr := { n.hdr with EOP := true } }]
  | n :: rest => n :: markEopTail rest

/-- Marks the packet boundaries of a scheduled list, as `_EthTxSchedList` does:
`(pList->head)->hwDcpt.hdr.SOP=1; (pList->tail)->hwDcpt.hdr.EOP=1` (for a
single-node list both marks land on the same node). -/
def markSopEop : List DcptNode → List DcptNode
  | [] => []
  | [n] => [{ n with hdr := { n.hdr with SOP := true, EOP := true } }]
  | n :: rest => { n with hdr := { n.hdr with SOP := true } } :: markEopTail rest

/-- Embeds `_EthTxSchedBuffer`: validates the buffer address, removes one node
from TX-free, attaches the translated buffer address and fills the header word
(`hdr.w = NPV|EOWN|(nBytes<<BCOUNT)`, so the node is marked hardware owned
already here), sets `kv0` for a KSEG0 buffer, and appends the node to the
temporary schedule list.  Returns `(result, txFree, pList)`. -/
def _EthTxSchedBuffer (txFree : List DcptNode) (pBuff nBytes : Nat)
    (pList : List DcptNode) : DRV_ETHMAC_RESULT × List DcptNode × List DcptNode :=
  if !IS_KVA pBuff then (.RES_USPACE_ERR, txFree, pList)
  else
    match txFree with
    | [] => (.RES_NO_DESCRIPTORS, [], pList)
    | pEDcpt :: rest =>
      let node : DcptNode :=
        { pEDcpt with
          pEDBuff := KVA_TO_PA pBuff,
          hdr := { zeroHdr with
                   NPV := true, EOWN := true, bCount := nBytes,
                   kv0 := IS_KVA0 pBuff } }
      (.RES_OK, rest, pList ++ [node])

/-- Embeds `_EthTxSchedList`: for a non-empty schedule list, marks SOP/EOP,
appends it to TX-busy through the append protocol (no RX acknowledge), programs
the TX head descriptor address on first-ever transmission and raises TXRTS. -/
def _EthTxSchedList (s : MacState) (pList : List DcptNode) : MacState :=
  if pList.isEmpty then s
  else
    let (busy1, decs1) := _EthAppendBusyList s.txBusy (markSopEop pList) false s.rxBuffDecs
    { s with txBusy := busy1, rxBuffDecs := decs1,
             txDescAddrSet := true, txEnabled := true }

/-- Embeds `DRV_ETHMAC_LibTxSendBuffer`: schedules a single buffer; on failure
with a non-empty temporary list the removed nodes are put back at the tail of
TX-free. -/
def DRV_ETHMAC_LibTxSendBuffer (s : MacState) (pBuff nBytes : Nat) :
    DRV_ETHMAC_RESULT × MacState :=
  let (res, txFree1, pNewList) := _EthTxSchedBuffer s.txFree pBuff nBytes []
  if res = .RES_OK then
    (res, _EthTxSchedList { s with txFree := txFree1 } pNewList)
  else if !pNewList.isEmpty then
    (res, { s with txFree := txFree1 ++ pNewList })
  else
    (res, { s with txFree := txFree1 })

/-- The `while(pPkt!=0 && pPkt->pBuff!=0 && pPkt->nBytes!=0 && res==OK)` loop
of `DRV_ETHMAC_LibTxSendPacket`: schedules each buffer descriptor of the
packet chain in turn, stopping at the chain end, a null buffer, a zero byte
count, or the first scheduling failure. -/
def txSendPacketLoop : List (Nat × Nat) → List DcptNode → List DcptNode →
    DRV_ETHMAC_RESULT × List DcptNode × List DcptNode
  | [], txFree, pList => (.RES_OK, txFree, pList)
  | (pBuff, nBytes) :: rest, txFree, pList =>
    if pBuff = 0 ∨ nBytes = 0 then (.RES_OK, txFree, pList)
    else
      match _EthTxSchedBuffer txFree pBuff nBytes pList with
      | (.RES_OK, txFree1, pList1) => txSendPacketLoop rest txFree1 pList1
      | (res, txFree1, pList1) => (res, txFree1, pList1)

/-- Embeds `DRV_ETHMAC_LibTxSendPacket`: schedules a buffer chain
(`DRV_ETHMAC_PKT_DCPT` list, each entry a buffer address and byte count); on
full success the accumulated list goes to TX-busy, on failure the already
removed nodes are put back at the tail of TX-free. -/
def DRV_ETHMAC_LibTxSendPacket (s : MacState) (pPkt : List (Nat × Nat)) :
    DRV_ETHMAC_RESULT × MacState :=
  let (res, txFree1, pNewList) := txSendPacketLoop pPkt s.txFree []
  if res = .RES_OK then
    (res, _EthTxSchedList { s with txFree := txFree1 } pNewList)
  else if !pNewList.isEmpty then
    (res, { s with txFree := txFree1 ++ pNewList })
  else
    (res, { s with txFree := txFree1 })

/-- Embeds `_EnetFindPacket`: finds the first node of the list whose SOP flag
is set and whose attached buffer's physical address equals the translated
query buffer address. -/
def _EnetFindPacket (pBuff : Nat) (pList : List DcptNode) : Option DcptNode :=
  pList.find? (fun pEDcpt => pEDcpt.hdr.SOP && pEDcpt.pEDBuff == KVA_TO_PA pBuff)

/-- Embeds `DRV_ETHMAC_LibTxGetBufferStatus`: a pure query of TX-busy.
Returns the result code, the TX statistics block handed out through
`*pTxStat` (modelled as the found node, whose `stat` field is the block), and
the (unchanged) machine state. -/
def DRV_ETHMAC_LibTxGetBufferStatus (s : MacState) (pBuff : Nat) :
    DRV_ETHMAC_RESULT × Option DcptNode × MacState :=
  match _EnetFindPacket pBuff s.txBusy with
  | some pHead =>
    if pHead.hdr.EOWN then (.RES_PACKET_QUEUED, none, s)
    else (.RES_OK, some pHead, s)
  | none => (.RES_NO_PACKET, none, s)

/-- Result of the buffer-collection loop of `DRV_ETHMAC_LibRxBuffersAppend`. -/
structure RxAppendLoopOut where
  res : DRV_ETHMAC_RESULT
  rxFree : List DcptNode
  newList : List DcptNode
  aborted : Bool
  deriving Repr, DecidableEq

/-- The `for(pBuff=*ppBuff; pBuff!=0 && nBuffs; ...)` loop of
`DRV_ETHMAC_LibRxBuffersAppend`: for each buffer, removes a node from RX-free
(`NoDescriptors` and abort when exhausted), attaches the translated address,
fills the header word (`hdr.w = NPV|EOWN`, hardware owned already here), sets
the sticky/rx_nack flags per the caller's flags and `kv0` for a KSEG0 buffer;
a buffer outside both kernel windows aborts with `UserSpaceAddressError` -
note that this abort happens before the node is added to the new list, so
that node ends up in neither list.  `aborted` records the C condition
`pBuff && nBuffs` at loop exit. -/
def rxBuffersAppendLoop (stickyF unackF : Bool) :
    List Nat → Nat → List DcptNode → List DcptNode → RxAppendLoopOut
  | [], _, rxFree, newList => ⟨.RES_OK, rxFree, newList, false⟩
  | _ :: _, 0, rxFree, newList => ⟨.RES_OK, rxFree, newList, false⟩
  | pBuff :: restB, Nat.succ nRem, rxFree, newList =>
    if pBuff = 0 then ⟨.RES_OK, rxFree, newList, false⟩
    else
      match rxFree with
      | [] => ⟨.RES_NO_DESCRIPTORS, [], newList, true⟩
      | pEDcpt :: freeRest =>
        let n1 : DcptNode :=
          { pEDcpt with
            pEDBuff := KVA_TO_PA pBuff,
            hdr := { zeroHdr with
                     NPV := true, EOWN := true,
                     sticky := stickyF, rx_nack := unackF,
                     kv0 := IS_KVA0 pBuff } }
        if !IS_KVA0 pBuff && !IS_KVA pBuff then
          ⟨.RES_USPACE_ERR, freeRest, newList, true⟩
        else
          rxBuffersAppendLoop stickyF unackF restB nRem freeRest (newList ++ [n1])

/-- Embeds `DRV_ETHMAC_LibRxBuffersAppend`: `nBuffs==0` means no limit
(`0x7fffffff`); on an aborted loop the collected new list is appended back to
the tail of RX-free and the loop's result returned; otherwise a non-empty new
list goes to RX-busy through the append protocol with RX acknowledge
semantics, the RX head descriptor address is programmed on first-ever append,
and the RX engine is enabled. -/
def DRV_ETHMAC_LibRxBuffersAppend (s : MacState) (ppBuff : List Nat) (nBuffs : Nat)
    (stickyF unackF : Bool) : DRV_ETHMAC_RESULT × MacState :=
  let nB := if nBuffs = 0 then 0x7fffffff else nBuffs
  let out := rxBuffersAppendLoop stickyF unackF ppBuff nB s.rxFree []
  if out.aborted then
    (out.res, { s with rxFree := out.rxFree ++ out.newList })
  else if !out.newList.isEmpty then
    let (busy1, decs1) := _EthAppendBusyList s.rxBusy out.newList true s.rxBuffDecs
    (.RES_OK, { s with
                rxFree := out.rxFree, rxBusy := busy1, rxBuffDecs := decs1,
                rxDescAddrSet := true, rxEnabled := true })
  else
    (.RES_OK, { s with rxFree := out.rxFree })

/-- Embeds `DRV_ETHMAC_LibDescriptorsPoolRemove`: removes up to `nDescriptors` nodes
from the selected direction's free list only; an unrecognized direction
returns 0 and changes nothing.  Returns `(removed, state)`. -/
def DRV_ETHMAC_LibDescriptorsPoolRemove (s : MacState) (nDescriptors : Nat)
    (dType : DRV_ETHMAC_DCPT_TYPE) : Nat × MacState :=
  match dType with
  | .TYPE_TX =>
    let (l, removed) := poolRemoveLoop nDescriptors s.txFree 0
    (removed, { s with txFree := l })
  | .TYPE_RX =>
    let (l, removed) := poolRemoveLoop nDescriptors s.rxFree 0
    (removed, { s with rxFree := l })
  | .TYPE_ALL => (0, s)

/-- The inner `while(pBuffDcpt || pnBuffs)` walk of
`DRV_ETHMAC_LibRxGetPacket`, starting at the packet's first node.  `hasPkt`
says whether the caller passed an output chain (`pPkt != 0`) and `slots` how
many slots that chain has; `hasPn` whether `pnBuffs != 0`.  While output slots
remain, each node's translated buffer pointer and byte count are written out
(`filled`); `nBuffs` counts every fragment.  At the EOP node the true fragment
count is stored through `pnBuffs`, and, when an output chain was given,
either `RxPacketSplitError` is produced (fewer slots than fragments) or the
packet head is to be marked `rx_wack` (the returned flag).  Returns
`(result, nBuffs written through pnBuffs, mark-head-rx_wack, filled)`. -/
def rxGetPacketWalk (hasPkt : Bool) (slots : Nat) (hasPn : Bool) :
    List DcptNode → Nat → Nat → List (Nat × Nat) →
    DRV_ETHMAC_RESULT × Option Nat × Bool × List (Nat × Nat)
  | [], _, _, filled => (.RES_OK, none, false, filled)
  | pEDcpt :: rest, nBuffs, reportBuffs, filled =>
    if !((hasPkt && decide (reportBuffs < slots)) || hasPn) then
      (.RES_OK, none, false, filled)
    else
      let doFill := hasPkt && decide (reportBuffs < slots)
      let filled1 :=
        if doFill then
          filled ++ [((if pEDcpt.hdr.kv0 then PA_TO_KVA0 pEDcpt.pEDBuff
                       else PA_TO_KVA1 pEDcpt.pEDBuff), pEDcpt.hdr.bCount)]
        else filled
      let reportBuffs1 := if doFill then reportBuffs + 1 else reportBuffs
      let nBuffs1 := nBuffs + 1
      if pEDcpt.hdr.EOP then
        (if hasPkt && decide (reportBuffs1 ≠ nBuffs1) then .RES_RX_PKT_SPLIT_ERR
         else .RES_OK,
         if hasPn then some nBuffs1 else none,
         hasPkt && !(decide (reportBuffs1 ≠ nBuffs1)),
         filled1)
      else
        rxGetPacketWalk hasPkt slots hasPn rest nBuffs1 reportBuffs1 filled1

/-- Result of `DRV_ETHMAC_LibRxGetPacket`: the result code, the fragment count
written through `pnBuffs`, the buffer descriptors written into the caller's
chain, the statistics block handed out through `pRxStat`, and the machine
state. -/
structure RxGetPacketOut where
  res : DRV_ETHMAC_RESULT
  nBuffsOut : Option Nat
  filled : List (Nat × Nat)
  statOut : Option Nat
  state : MacState
  deriving Repr, DecidableEq

/-- The outer scan of `DRV_ETHMAC_LibRxGetPacket` over RX-busy: stops with
`PacketQueued` at the first hardware-owned node; at the first unreported
start-of-packet node it hands out the statistics block and runs the inner
walk, marking the packet head `rx_wack` exactly when the walk reported the
packet in full; all other nodes are skipped.  Returns the result code, the
`pnBuffs` output, the filled chain, the `pRxStat` output and the updated
RX-busy contents. -/
def rxGetPacketLoop (hasPkt : Bool) (slots : Nat) (hasPn : Bool) :
    List DcptNode →
    DRV_ETHMAC_RESULT × Option Nat × List (Nat × Nat) × Option Nat × List DcptNode
  | [] => (.RES_NO_PACKET, none, [], none, [])
  | pEDcpt :: rest =>
    if pEDcpt.hdr.EOWN then (.RES_PACKET_QUEUED, none, [], none, pEDcpt :: rest)
    else if pEDcpt.hdr.SOP && !pEDcpt.hdr.rx_wack then
      let (res, nOut, wackSet, filled) :=
        rxGetPacketWalk hasPkt slots hasPn (pEDcpt :: rest) 0 0 []
      let pHead1 :=
        if wackSet then { pEDcpt with hdr := { pEDcpt.hdr with rx_wack := true } }
        else pEDcpt
      (res, nOut, filled, some pEDcpt.stat, pHead1 :: rest)
    else
      let (res, nOut, filled, statOut, rest1) := rxGetPacketLoop hasPkt slots hasPn rest
      (res, nOut, filled, statOut, pEDcpt :: rest1)

/-- Embeds `DRV_ETHMAC_LibRxGetPacket`.  The caller's output chain `pPkt` is
modelled by `none` (null) or `some slots` (a chain of `slots` buffer
descriptor slots); `hasPnBuffs` models `pnBuffs != 0`. -/
def DRV_ETHMAC_LibRxGetPacket (s : MacState) (pPkt : Option Nat) (hasPnBuffs : Bool) :
    RxGetPacketOut :=
  let (res, nOut, filled, statOut, busy1) :=
    rxGetPacketLoop pPkt.isSome (pPkt.getD 0) hasPnBuffs s.rxBusy
  ⟨res, nOut, filled, statOut, { s with rxBusy := busy1 }⟩

/-- Result of the busy-list scan of `_EthGetAckedPacket`: the remaining list,
the detached (acknowledged) nodes, the number of packets acknowledged and the
packet-found flag. -/
structure AckScanOut where
  remList : List DcptNode
  ackList : List DcptNode
  nAcks : Nat
  pktFound : Bool
  deriving Repr, DecidableEq

/-- The scan loop of `_EthGetAckedPacket`.  `detaching = true` is the inner
do-while that moves the current packet's nodes to the ack list through the
first EOP node; `detaching = false` is the outer for loop: a node with SOP
set matching the searched buffer (any SOP node when `pPkt` is null) is the
head of a candidate packet - if it is still hardware owned the scan stops
(packet found but queued), otherwise the chain through EOP is detached and,
when a specific buffer was searched, the scan stops after this one packet.
All other nodes stay in the list. -/
def ethGetAckedGo (pPkt : Option Nat) :
    Bool → List DcptNode → List DcptNode → List DcptNode → Nat → Bool → AckScanOut
  | _, [], kept, ack, nAcks, pktFound => ⟨kept, ack, nAcks, pktFound⟩
  | true, pEDcpt :: rest, kept, ack, nAcks, pktFound =>
    if pEDcpt.hdr.EOP then
      if pPkt.isSome then ⟨kept ++ rest, ack ++ [pEDcpt], nAcks + 1, pktFound⟩
      else ethGetAckedGo pPkt false rest kept (ack ++ [pEDcpt]) (nAcks + 1) pktFound
    else ethGetAckedGo pPkt true rest kept (ack ++ [pEDcpt]) nAcks pktFound
  | false, pEDcpt :: rest, kept, ack, nAcks, pktFound =>
    if pEDcpt.hdr.SOP && (pPkt.isNone || pEDcpt.pEDBuff == KVA_TO_PA (pPkt.getD 0)) then
      if pEDcpt.hdr.EOWN then ⟨kept ++ pEDcpt :: rest, ack, nAcks, true⟩
      else
        if pEDcpt.hdr.EOP then
          if pPkt.isSome then ⟨kept ++ rest, ack ++ [pEDcpt], nAcks + 1, true⟩
          else ethGetAckedGo pPkt false rest kept (ack ++ [pEDcpt]) (nAcks + 1) true
        else ethGetAckedGo pPkt true rest kept (ack ++ [pEDcpt]) nAcks true
    else ethGetAckedGo pPkt false rest (kept ++ [pEDcpt]) ack nAcks pktFound

/-- Embeds `_EthGetAckedPacket`: scans the removal list for completed packets
matching `pPkt` (all completed leading packets when `pPkt` is null), detaches
them into the ack list, and maps the counters to the tri-state result.
Returns `(result, remaining list, ack list)`. -/
def _EthGetAckedPacket (pPkt : Option Nat) (pRemList : List DcptNode) :
    DRV_ETHMAC_RESULT × List DcptNode × List DcptNode :=
  let out := ethGetAckedGo pPkt false pRemList [] [] 0 false
  (if out.nAcks ≠ 0 then .RES_OK
   else if out.pktFound then .RES_PACKET_QUEUED else .RES_NO_PACKET,
   out.remList, out.ackList)

/-- The sticky re-queue preparation of `_EthRxAckBuffer`:
`SOP=EOP=rx_wack=0; EOWN=1`, keeping the dedicated buffer attached. -/
def stickyRequeue (n : DcptNode) : DcptNode :=
  { n with hdr := { n.hdr with
                    SOP := false, EOP := false, rx_wack := false,
                    EOWN := true } }

/-- The `while((pEDcpt=DRV_ETHMAC_LIB_ListRemoveHead(pAckList)))` loop of
`_EthRxAckBuffer`: sticky nodes are prepared for re-queueing and collected in
the sticky list; non-sticky nodes lose their buffer attachment, go back to
the tail of RX-free, and decrement the hardware pending-buffer counter unless
their `rx_nack` flag is set. -/
def rxAckProcessLoop : List DcptNode → List DcptNode → List DcptNode → Nat →
    List DcptNode × List DcptNode × Nat
  | [], rxFree, stickyList, decs => (rxFree, stickyList, decs)
  | pEDcpt :: rest, rxFree, stickyList, decs =>
    if pEDcpt.hdr.sticky then
      rxAckProcessLoop rest rxFree (stickyList ++ [stickyRequeue pEDcpt]) decs
    else
      rxAckProcessLoop rest (rxFree ++ [{ pEDcpt with pEDBuff := 0 }]) stickyList
        (decs + (if !pEDcpt.hdr.rx_nack then 1 else 0))

/-- Embeds `_EthRxAckBuffer` (the body of `DRV_ETHMAC_LibRxAcknowledgeBuffer`):
detaches the completed reported packet(s), processes the detached nodes, and
re-appends the non-empty sticky list to RX-busy through the append protocol
with RX acknowledge semantics. -/
def _EthRxAckBuffer (s : MacState) (pBuff : Option Nat) :
    DRV_ETHMAC_RESULT × MacState :=
  let (res, busy1, ackList) := _EthGetAckedPacket pBuff s.rxBusy
  let (rxFree1, stickyList, decs1) := rxAckProcessLoop ackList s.rxFree [] s.rxBuffDecs
  if stickyList.isEmpty then
    (res, { s with rxBusy := busy1, rxFree := rxFree1, rxBuffDecs := decs1 })
  else
    let (busy2, decs2) := _EthAppendBusyList busy1 stickyList true decs1
    (res, { s with rxBusy := busy2, rxFree := rxFree1, rxBuffDecs := decs2 })

/-- Embeds `DRV_ETHMAC_LibRxAcknowledgeBuffer`: delegates to `_EthRxAckBuffer`. -/
def DRV_ETHMAC_LibRxAcknowledgeBuffer (s : MacState) (pBuff : Option Nat) :
    DRV_ETHMAC_RESULT × MacState :=
  _EthRxAckBuffer s pBuff

/-- One call of the pool interface on the TX direction: used to state
properties of arbitrary `PoolAdd`/`PoolRemove` call sequences. -/
inductive PoolOp where
  | add (n : Nat)
  | remove (n : Nat)
  deriving Repr, DecidableEq

/-- Runs a sequence of TX-direction pool calls, threading the machine state
and the allocator budget. -/
def runPoolOpsTx : List PoolOp → MacState → Nat → MacState × Nat
  | [], s, budget => (s, budget)
  | PoolOp.add n :: ops, s, budget =>
    let r := DRV_ETHMAC_LibDescriptorsPoolAdd s n .TYPE_TX false budget
    runPoolOpsTx ops r.2.1 r.2.2
  | PoolOp.remove n :: ops, s, budget =>
    runPoolOpsTx ops (DRV_ETHMAC_LibDescriptorsPoolRemove s n .TYPE_TX).2 budget

/-- The per-call counting semantics of the pool interface, on
`(free count, busy count, allocator budget)`: a `PoolAdd` grows the free
count by the number of nodes the allocator can still provide (one allocation
going to the sentinel first on a first-ever call), a `PoolRemove` shrinks the
free count clamped at zero. -/
def poolSpecStep : Nat × Nat × Nat → PoolOp → Nat × Nat × Nat
  | (freeCnt, busyCnt, budget), PoolOp.add n =>
    if busyCnt = 0 then
      match budget with
      | 0 => (freeCnt, busyCnt, 0)
      | Nat.succ b => (freeCnt + min n b, 1, b - min n b)
    else (freeCnt + min n budget, busyCnt, budget - min n budget)
  | (freeCnt, busyCnt, budget), PoolOp.remove n => (freeCnt - min n freeCnt, busyCnt, budget)

/-- A zero node, as produced by the modelled allocator. -/
def zNode : DcptNode := { hdr := zeroHdr, pEDBuff := 0, stat := 0 }

/-- A concrete busy-list sentinel node (a distinguishable `stat` value). -/
def wSentinel : DcptNode := { hdr := zeroHdr, pEDBuff := 0, stat := 7 }

/-- The all-empty machine state. -/
def macState0 : MacState :=
  { txFree := [], txBusy := [], rxFree := [], rxBusy := [], rxBuffDecs := 0,
    txDescAddrSet := false, rxDescAddrSet := false,
    txEnabled := false, rxEnabled := false }

/-- A small provisioned state: one free node and a seated sentinel in each
direction. -/
def cexState : MacState :=
  { macState0 with
    txFree := [zNode], txBusy := [wSentinel],
    rxFree := [zNode], rxBusy := [wSentinel] }

/-- First step of the pool-sequence scenario: add 2 TX descriptors to the
empty state, allocator budget 100. -/
def c8s1 : Nat × MacState × Nat :=
  DRV_ETHMAC_LibDescriptorsPoolAdd macState0 2 .TYPE_TX false 100

/-- Second step: request removal of 5 TX descriptors. -/
def c8s2 : Nat × MacState :=
  DRV_ETHMAC_LibDescriptorsPoolRemove c8s1.2.1 5 .TYPE_TX

/-- Third step: add 3 more TX descriptors. -/
def c8s3 : Nat × MacState × Nat :=
  DRV_ETHMAC_LibDescriptorsPoolAdd c8s2.2 3 .TYPE_TX false c8s1.2.2

/-- A completed, reported, sticky single-fragment RX packet node. -/
def wStickyPkt : DcptNode :=
  { hdr := { zeroHdr with
             SOP := true, EOP := true, sticky := true, rx_wack := true },
    pEDBuff := 0x300, stat := 5 }

/-- A state holding the completed sticky packet in RX-busy ahead of the
sentinel, with one spare node in RX-free. -/
def wAckState : MacState :=
  { macState0 with rxBusy := [wStickyPkt, wSentinel], rxFree := [zNode] }

/-- First fragment of a completed two-fragment RX packet. -/
def wRxP1 : DcptNode :=
  { hdr := { zeroHdr with SOP := true, kv0 := true, bCount := 100 },
    pEDBuff := 0x100, stat := 9 }

/-- Second (last) fragment of the two-fragment RX packet. -/
def wRxP2 : DcptNode :=
  { hdr := { zeroHdr with EOP := true, kv0 := true, bCount := 44 },
    pEDBuff := 0x200, stat := 0 }

/-- A state holding the completed two-fragment packet in RX-busy. -/
def wRxState : MacState :=
  { macState0 with rxBusy := [wRxP1, wRxP2, wSentinel] }

/-- A completed (software-owned) TX packet head node sitting in TX-busy. -/
def wTxDone : DcptNode :=
  { hdr := { zeroHdr with SOP := true, bCount := 64 }, pEDBuff := 5, stat := 11 }

/-- A state holding the completed TX packet head in TX-busy. -/
def wTxBusyState : MacState :=
  { macState0 with txBusy := [wTxDone, wSentinel] }

/-- A prepared (hardware-owned, buffer-attached) node as the TX-scheduling
code builds it. -/
def wTxPrepped : DcptNode :=
  { hdr := { zeroHdr with NPV := true, EOWN := true, kv0 := true, bCount := 64 },
    pEDBuff := 0x1000, stat := 0 }

/-- Setting the slot holding the last element of `l` (inside `l ++ t`)
replaces that element in place. -/
theorem set_last_append {α : Type} (l : List α) (t : List α) (x : α) (h : l ≠ []) :
    (l ++ t).set (l.length - 1) x = l.dropLast ++ x :: t := by
  induction l generalizing t with
  | nil => exact absurd rfl h
  | cons a l ih =>
    cases l with
    | nil => simp
    | cons b l2 =>
      have h2 : (b :: l2 : List α) ≠ [] := by simp
      have step : ((a :: b :: l2) ++ t).set ((a :: b :: l2).length - 1) x
          = a :: (((b :: l2) ++ t).set ((b :: l2).length - 1) x) := by
        simp [List.set]
      rw [step, ih t h2]
      simp

/-- Setting the slot right after a prefix `l` replaces the element there. -/
theorem set_append_cons {α : Type} (l : List α) (a : α) (t : List α) (x : α) :
    (l ++ a :: t).set l.length x = l ++ x :: t := by
  have h : (l ++ [a] : List α) ≠ [] := by simp
  have e := set_last_append (l ++ [a]) t x h
  simpa using e

/-- The append loop of the protocol moves all remaining new nodes behind the
busy tail and counts one RX decrement per node with `rx_nack` clear. -/
theorem ethAppendLoop_spec (rxAck : Bool) (rest : List DcptNode) :
    ∀ (busy : List DcptNode) (decs : Nat),
    _EthAppendLoop rxAck busy rest decs =
      (busy ++ rest, decs + (if rxAck then rest.countP (fun n => !n.hdr.rx_nack) else 0)) := by
  induction rest with
  | nil => intro busy decs; simp [_EthAppendLoop]
  | cons pN r ih =>
    intro busy decs
    rw [_EthAppendLoop, ih]
    simp only [List.append_assoc, List.cons_append, List.nil_append,
      List.countP_cons, Prod.mk.injEq, true_and]
    cases rxAck <;> cases hn : pN.hdr.rx_nack <;> simp <;> omega

/-- Shape of the staged append (before the final ownership flip): the old
sentinel slot holds the new head's content with EOWN clear, followed by the
remaining new nodes and the fresh zeroed sentinel. -/
theorem ethAppendStaged_eq (busy : List DcptNode) (head : DcptNode) (rest : List DcptNode)
    (rxAck : Bool) (decs : Nat) (h : busy ≠ []) :
    _EthAppendStaged busy (head :: rest) rxAck decs =
      (busy.dropLast ++ { head with hdr := { head.hdr with EOWN := false } }
         :: (rest ++ [{ head with hdr := zeroHdr, pEDBuff := 0 }]),
       decs + (if rxAck then rest.countP (fun n => !n.hdr.rx_nack) else 0)) := by
  simp only [_EthAppendStaged, ethAppendLoop_spec]
  rw [set_last_append busy rest _ h]
  simp [List.append_assoc]

/-- Shape of the full append protocol on a non-empty busy list: the old
sentinel slot takes the new head's content flipped to hardware ownership,
followed by the remaining new nodes and the fresh zeroed sentinel; the RX
decrement counter grows by the number of new nodes with `rx_nack` clear. -/
theorem ethAppendBusyList_eq (busy : List DcptNode) (head : DcptNode)
    (rest : List DcptNode) (rxAck : Bool) (decs : Nat) (h : busy ≠ []) :
    _EthAppendBusyList busy (head :: rest) rxAck decs =
      (busy.dropLast ++ { head with hdr := { head.hdr with EOWN := true } }
         :: (rest ++ [{ head with hdr := zeroHdr, pEDBuff := 0 }]),
       decs + (if rxAck then (head :: rest).countP (fun n => !n.hdr.rx_nack) else 0)) := by
  simp only [_EthAppendBusyList, ethAppendStaged_eq busy head rest rxAck decs h]
  have hlen : busy.length - 1 = busy.dropLast.length := (List.length_dropLast busy).symm
  rw [hlen, set_append_cons]
  simp only [List.countP_cons, Prod.mk.injEq, true_and]
  cases rxAck <;> cases hn : head.hdr.rx_nack <;> simp <;> omega

/-- The decrement count of the append protocol, with no assumption on the
busy list. -/
theorem ethAppendBusyList_snd (busy : List DcptNode) (head : DcptNode)
    (rest : List DcptNode) (rxAck : Bool) (decs : Nat) :
    (_EthAppendBusyList busy (head :: rest) rxAck decs).2 =
      decs + (if rxAck then (head :: rest).countP (fun n => !n.hdr.rx_nack) else 0) := by
  simp only [_EthAppendBusyList, _EthAppendStaged, ethAppendLoop_spec]
  simp only [List.countP_cons]
  cases rxAck <;> cases hn : head.hdr.rx_nack <;> simp <;> omega

/-- C2: for every append-protocol call on a busy list satisfying its
precondition (non-empty, ending in a software-owned buffer-less sentinel)
with a non-empty new list (whose non-head nodes are prepared hardware-owned,
as both callers prepare them), the resulting busy list is non-empty, its tail
node has no buffer attached and a zero header word (hence software
ownership), and every node between the old sentinel position and the new
tail (exclusive) is hardware-owned. -/
theorem C2_appendBusyList_sentinel_invariant
    (front : List DcptNode) (sentN head : DcptNode) (rest : List DcptNode)
    (rxAck : Bool) (decs : Nat)
    (hsent : sentN.pEDBuff = 0 ∧ sentN.hdr.EOWN = false)
    (hprep : ∀ n ∈ rest, n.hdr.EOWN = true) :
    (_EthAppendBusyList (front ++ [sentN]) (head :: rest) rxAck decs).1 ≠ [] ∧
    (_EthAppendBusyList (front ++ [sentN]) (head :: rest) rxAck decs).1.getLast? =
      some { hdr := zeroHdr, pEDBuff := 0, stat := head.stat } ∧
    (∀ n ∈ ((_EthAppendBusyList (front ++ [sentN]) (head :: rest) rxAck decs).1.drop
              ((front ++ [sentN]).length - 1)).dropLast,
       n.hdr.EOWN = true) := by
  have hne : (front ++ [sentN] : List DcptNode) ≠ [] := by simp
  simp only [ethAppendBusyList_eq (front ++ [sentN]) head rest rxAck decs hne]
  have hdl : (front ++ [sentN]).dropLast = front := List.dropLast_concat
  have hl : (front ++ [sentN] : List DcptNode).length - 1 = front.length := by simp
  refine ⟨by simp, ?_, ?_⟩
  · rw [hdl]
    rw [show ({ head with hdr := { head.hdr with EOWN := true } }
          :: (rest ++ [{ head with hdr := zeroHdr, pEDBuff := 0 }]))
        = ({ head with hdr := { head.hdr with EOWN := true } } :: rest)
          ++ [{ head with hdr := zeroHdr, pEDBuff := 0 }] from rfl]
    rw [← List.append_assoc, List.getLast?_concat]
  · intro n hn
    rw [hl, hdl, List.drop_left] at hn
    rw [show ({ head with hdr := { head.hdr with EOWN := true } }
          :: (rest ++ [{ head with hdr := zeroHdr, pEDBuff := 0 }]))
        = ({ head with hdr := { head.hdr with EOWN := true } } :: rest)
          ++ [{ head with hdr := zeroHdr, pEDBuff := 0 }] from rfl,
       List.dropLast_concat] at hn
    rcases List.mem_cons.mp hn with rfl | hmem
    · rfl
    · exact hprep n hmem

/-- Witness for C2 at a concrete input: busy list holding only a sentinel,
new list holding one prepared node. -/
theorem C2_witness :
    (_EthAppendBusyList ([] ++ [wSentinel]) (wTxPrepped :: []) false 0).1 ≠ [] ∧
    (_EthAppendBusyList ([] ++ [wSentinel]) (wTxPrepped :: []) false 0).1.getLast? =
      some { hdr := zeroHdr, pEDBuff := 0, stat := wTxPrepped.stat } ∧
    (∀ n ∈ ((_EthAppendBusyList ([] ++ [wSentinel]) (wTxPrepped :: []) false 0).1.drop
              (([] ++ [wSentinel] : List DcptNode).length - 1)).dropLast,
       n.hdr.EOWN = true) :=
  C2_appendBusyList_sentinel_invariant [] wSentinel wTxPrepped [] false 0
    (by decide) (by decide)

/-- C3 counterexample: the claim says the nodes of the new list reach the
append protocol with ownership left at software (EOWN clear); in fact
`_EthTxSchedBuffer` prepares each node with `hdr.w = NPV|EOWN|...`, i.e.
hardware-owned, and it is still hardware-owned after the SOP/EOP marking,
right when `_EthAppendBusyList` receives it. -/
theorem C3_counterexample :
    ((_EthTxSchedBuffer [zNode] 0x80001000 64 []).2.2.map (fun n => n.hdr.EOWN))
        = [true] ∧
    (_EthTxSchedBuffer [zNode] 0x80001000 64 []).1 = .RES_OK ∧
    ((markSopEop (_EthTxSchedBuffer [zNode] 0x80001000 64 []).2.2).map
        (fun n => n.hdr.EOWN)) = [true] := by
  decide

/-- C3 amended: the nodes of the new list are prepared hardware-owned
(EOWN set) by the TX scheduling code; the append protocol clears EOWN on the
head of the new list, so the boundary slot (the old sentinel slot, which
hardware may be parked at) stays software-owned while the whole chain -
including the new trailing sentinel - is linked in, and the final step of the
protocol flips exactly that boundary slot to hardware ownership. -/
theorem C3_amended_prepared_hw_flip_last (busy : List DcptNode) (head : DcptNode)
    (rest : List DcptNode) (rxAck : Bool) (decs : Nat) (h : busy ≠ []) :
    ((_EthAppendStaged busy (head :: rest) rxAck decs).1 =
       busy.dropLast ++ { head with hdr := { head.hdr with EOWN := false } }
         :: (rest ++ [{ head with hdr := zeroHdr, pEDBuff := 0 }])) ∧
    ((_EthAppendBusyList busy (head :: rest) rxAck decs).1 =
       (_EthAppendStaged busy (head :: rest) rxAck decs).1.set (busy.length - 1)
         { head with hdr := { head.hdr with EOWN := true } }) ∧
    (∀ (txFree pList : List DcptNode) (pBuff nBytes : Nat),
       (_EthTxSchedBuffer txFree pBuff nBytes pList).1 = .RES_OK →
       ∃ nd, (_EthTxSchedBuffer txFree pBuff nBytes pList).2.2 = pList ++ [nd] ∧
             nd.hdr.EOWN = true) := by
  have hst := ethAppendStaged_eq busy head rest rxAck decs h
  have hfin := ethAppendBusyList_eq busy head rest rxAck decs h
  refine ⟨by rw [hst], ?_, ?_⟩
  · rw [show (_EthAppendStaged busy (head :: rest) rxAck decs).1 =
        busy.dropLast ++ { head with hdr := { head.hdr with EOWN := false } }
          :: (rest ++ [{ head with hdr := zeroHdr, pEDBuff := 0 }]) from by rw [hst],
       show (_EthAppendBusyList busy (head :: rest) rxAck decs).1 =
        busy.dropLast ++ { head with hdr := { head.hdr with EOWN := true } }
          :: (rest ++ [{ head with hdr := zeroHdr, pEDBuff := 0 }]) from by rw [hfin]]
    have hlen : busy.length - 1 = busy.dropLast.length := (List.length_dropLast busy).symm
    rw [hlen, set_append_cons]
  · intro txFree pList pBuff nBytes hres
    unfold _EthTxSchedBuffer at hres ⊢
    by_cases hkva : IS_KVA pBuff
    · simp only [hkva, Bool.not_true, Bool.false_eq_true, if_false] at hres ⊢
      cases txFree with
      | nil => exact absurd hres (by simp)
      | cons pEDcpt rst =>
        exact ⟨_, rfl, rfl⟩
    · simp only [Bool.not_eq_true] at hkva
      simp [hkva] at hres

/-- Witness for C3 (amended) at a concrete input: a one-sentinel busy list,
a one-node new list, and a concrete successful TX buffer scheduling. -/
theorem C3_witness :
    ((_EthAppendStaged [wSentinel] (wTxPrepped :: []) false 0).1 =
       ([wSentinel] : List DcptNode).dropLast
         ++ { wTxPrepped with hdr := { wTxPrepped.hdr with EOWN := false } }
         :: ([] ++ [{ wTxPrepped with hdr := zeroHdr, pEDBuff := 0 }])) ∧
    (∃ nd, (_EthTxSchedBuffer [zNode] 0x80001000 64 []).2.2 = [] ++ [nd] ∧
           nd.hdr.EOWN = true) :=
  ⟨(C3_amended_prepared_hw_flip_last [wSentinel] wTxPrepped [] false 0 (by decide)).1,
   (C3_amended_prepared_hw_flip_last [wSentinel] wTxPrepped [] false 0 (by decide)).2.2
     [zNode] [] 0x80001000 64 (by decide)⟩

/-- C4: for every RX append (rxAck set) of a non-empty new list, the
pending-buffer counter decrement is issued exactly once per node of the new
list whose `rx_nack` flag is clear - the head of the new list (whose content
replaces the former sentinel) included, the new trailing sentinel not. -/
theorem C4_rx_append_decrement_count (busy : List DcptNode) (head : DcptNode)
    (rest : List DcptNode) (decs : Nat) :
    (_EthAppendBusyList busy (head :: rest) true decs).2 =
      decs + (head :: rest).countP (fun n => !n.hdr.rx_nack) := by
  rw [ethAppendBusyList_snd]
  simp

/-- C7: the TX buffer-status query leaves the machine state (all four lists
and every node) unchanged; it returns `PacketQueued` when the first SOP node
of TX-busy whose attached buffer matches the translated query address is
still hardware-owned, `Ok` together with that node's statistics block when it
is software-owned, and `NoPacket` when no such node exists. -/
theorem C7_txGetBufferStatus_pure_query (s : MacState) (pBuff : Nat) :
    (DRV_ETHMAC_LibTxGetBufferStatus s pBuff).2.2 = s ∧
    (_EnetFindPacket pBuff s.txBusy = none →
      (DRV_ETHMAC_LibTxGetBufferStatus s pBuff).1 = .RES_NO_PACKET) ∧
    (∀ pHead, _EnetFindPacket pBuff s.txBusy = some pHead →
      (pHead.hdr.EOWN = true →
        (DRV_ETHMAC_LibTxGetBufferStatus s pBuff).1 = .RES_PACKET_QUEUED ∧
        (DRV_ETHMAC_LibTxGetBufferStatus s pBuff).2.1 = none) ∧
      (pHead.hdr.EOWN = false →
        (DRV_ETHMAC_LibTxGetBufferStatus s pBuff).1 = .RES_OK ∧
        (DRV_ETHMAC_LibTxGetBufferStatus s pBuff).2.1 = some pHead)) := by
  refine ⟨?_, ?_, ?_⟩
  · cases h : _EnetFindPacket pBuff s.txBusy with
    | none => simp [DRV_ETHMAC_LibTxGetBufferStatus, h]
    | some pHead =>
      simp only [DRV_ETHMAC_LibTxGetBufferStatus, h]
      cases hE : pHead.hdr.EOWN <;> simp [hE]
  · intro h
    simp [DRV_ETHMAC_LibTxGetBufferStatus, h]
  · intro pHead h
    constructor
    · intro hE
      simp [DRV_ETHMAC_LibTxGetBufferStatus, h, hE]
    · intro hE
      simp [DRV_ETHMAC_LibTxGetBufferStatus, h, hE]

/-- Witness for C7 at a concrete input: a software-owned matching SOP node in
TX-busy. -/
theorem C7_witness :
    (DRV_ETHMAC_LibTxGetBufferStatus wTxBusyState 0x80000005).1 = .RES_OK ∧
    (DRV_ETHMAC_LibTxGetBufferStatus wTxBusyState 0x80000005).2.1 = some wTxDone :=
  ((C7_txGetBufferStatus_pure_query wTxBusyState 0x80000005).2.2 wTxDone
    (by decide)).2 (by decide)

/-- The buffer-collection loop of `DRV_ETHMAC_LibRxBuffersAppend` succeeds in
full when every buffer is a non-null kernel address, the limit is at least
the number of buffers and the free list is long enough: it consumes exactly
one free node per buffer and does not abort. -/
theorem rxBuffersAppendLoop_all_ok (stickyF unackF : Bool) :
    ∀ (bl : List Nat) (nB : Nat) (free acc : List DcptNode),
    (∀ b ∈ bl, IS_KVA b = true ∧ b ≠ 0) → bl.length ≤ nB → bl.length ≤ free.length →
    ∃ newAcc, rxBuffersAppendLoop stickyF unackF bl nB free acc =
      ⟨.RES_OK, free.drop bl.length, newAcc, false⟩ ∧
      newAcc.length = acc.length + bl.length := by
  intro bl
  induction bl with
  | nil =>
    intro nB free acc _ _ _
    cases nB <;> exact ⟨acc, rfl, by simp⟩
  | cons b bl ih =>
    intro nB free acc hb hn hf
    cases nB with
    | zero => simp at hn
    | succ nRem =>
      cases free with
      | nil => simp at hf
      | cons f0 free1 =>
        have hb0 := hb b (by simp)
        have hkva : (!IS_KVA0 b && !IS_KVA b) = false := by
          rcases hb0 with ⟨h1, _⟩
          simp [h1]
        rw [rxBuffersAppendLoop]
        rw [if_neg (by exact hb0.2)]
        simp only [hkva, Bool.false_eq_true, if_false]
        have hlen1 : bl.length ≤ nRem := by simpa using hn
        have hlen2 : bl.length ≤ free1.length := by simpa using hf
        obtain ⟨newAcc, heq, hlen⟩ :=
          ih nRem free1 (acc ++ [_]) (fun x hx => hb x (by simp [hx])) hlen1 hlen2
        refine ⟨newAcc, ?_, ?_⟩
        · rw [heq]
          simp
        · rw [hlen]
          simp
          omega

/-- C9: calling `DRV_ETHMAC_LibRxBuffersAppend` with `nBuffs = 0` does not
append zero buffers - it is treated as no limit (internally `0x7fffffff`),
so (given enough free descriptors and valid buffers) every buffer of the
array is appended: the call behaves exactly like a call with limit
`0x7fffffff`, succeeds, and consumes one RX-free node per buffer. -/
theorem C9_rx_append_nBuffs_zero_means_no_limit (s : MacState) (ppBuff : List Nat)
    (stickyF unackF : Bool)
    (hbuffs : ∀ b ∈ ppBuff, IS_KVA b = true ∧ b ≠ 0)
    (hlen : ppBuff.length ≤ 0x7fffffff)
    (hfree : ppBuff.length ≤ s.rxFree.length) :
    DRV_ETHMAC_LibRxBuffersAppend s ppBuff 0 stickyF unackF =
      DRV_ETHMAC_LibRxBuffersAppend s ppBuff 0x7fffffff stickyF unackF ∧
    (DRV_ETHMAC_LibRxBuffersAppend s ppBuff 0 stickyF unackF).1 = .RES_OK ∧
    (DRV_ETHMAC_LibRxBuffersAppend s ppBuff 0 stickyF unackF).2.rxFree.length =
      s.rxFree.length - ppBuff.length := by
  obtain ⟨newAcc, heq, hacc⟩ :=
    rxBuffersAppendLoop_all_ok stickyF unackF ppBuff 0x7fffffff s.rxFree []
      hbuffs hlen hfree
  refine ⟨rfl, ?_, ?_⟩ <;>
    · simp only [DRV_ETHMAC_LibRxBuffersAppend]
      norm_num
      rw [heq]
      by_cases hemp : newAcc = [] <;> simp [hemp]

/-- Witness for C9 at a concrete input: one valid buffer, one free node. -/
theorem C9_witness :
    DRV_ETHMAC_LibRxBuffersAppend cexState [0x80001000] 0 false false =
      DRV_ETHMAC_LibRxBuffersAppend cexState [0x80001000] 0x7fffffff false false ∧
    (DRV_ETHMAC_LibRxBuffersAppend cexState [0x80001000] 0 false false).1 = .RES_OK ∧
    (DRV_ETHMAC_LibRxBuffersAppend cexState [0x80001000] 0 false false).2.rxFree.length =
      cexState.rxFree.length - ([0x80001000] : List Nat).length :=
  C9_rx_append_nBuffs_zero_means_no_limit cexState [0x80001000] false false
    (by decide) (by decide) (by decide)

/-- C10: `PoolAdd` with a null allocator or an unrecognized direction, and
`PoolRemove` with an unrecognized direction, return 0 and leave the machine
state (all four descriptor lists included) unchanged. -/
theorem C10_pool_invalid_args_no_effect (s : MacState) (n budget : Nat)
    (dType : DRV_ETHMAC_DCPT_TYPE) :
    DRV_ETHMAC_LibDescriptorsPoolAdd s n dType true budget = (0, s, budget) ∧
    DRV_ETHMAC_LibDescriptorsPoolAdd s n .TYPE_ALL false budget = (0, s, budget) ∧
    DRV_ETHMAC_LibDescriptorsPoolRemove s n .TYPE_ALL = (0, s) := by
  refine ⟨?_, rfl, rfl⟩
  simp [DRV_ETHMAC_LibDescriptorsPoolAdd]

/-- The creation loop of `PoolAdd` creates exactly `min n budget` zero nodes
onto the free-list tail and returns the partial count on allocator failure. -/
theorem poolAddLoop_spec : ∀ (n budget : Nat) (fList : List DcptNode) (c : Nat),
    poolAddLoop n budget fList c =
      (fList ++ List.replicate (min n budget) { hdr := zeroHdr, pEDBuff := 0, stat := 0 },
       budget - min n budget, c + min n budget) := by
  intro n
  induction n with
  | zero => intro budget fList c; simp [poolAddLoop]
  | succ n ih =>
    intro budget fList c
    cases budget with
    | zero => simp [poolAddLoop, allocDcpt]
    | succ b =>
      rw [poolAddLoop]
      simp only [allocDcpt]
      rw [ih]
      have hmin : min (n + 1) (b + 1) = min n b + 1 := by omega
      rw [hmin, List.replicate_succ]
      simp only [Prod.mk.injEq, List.append_assoc, List.singleton_append]
      refine ⟨trivial, by omega, by omega⟩

/-- The removal loop of `PoolRemove` drops exactly `min n length` nodes from
the free-list head. -/
theorem poolRemoveLoop_spec : ∀ (n : Nat) (l : List DcptNode) (r : Nat),
    poolRemoveLoop n l r = (l.drop n, r + min n l.length) := by
  intro n
  induction n with
  | zero => intro l r; simp [poolRemoveLoop]
  | succ n ih =>
    intro l r
    cases l with
    | nil => simp [poolRemoveLoop]
    | cons a l2 =>
      rw [poolRemoveLoop, ih]
      simp only [List.drop_succ_cons, List.length_cons, Prod.mk.injEq, true_and]
      omega

/-- One TX `PoolAdd` call realizes exactly one `poolSpecStep` on the
`(free count, busy count, budget)` triple. -/
theorem poolAdd_tx_lengths (s : MacState) (n bud : Nat) :
    ((DRV_ETHMAC_LibDescriptorsPoolAdd s n .TYPE_TX false bud).2.1.txFree.length,
     (DRV_ETHMAC_LibDescriptorsPoolAdd s n .TYPE_TX false bud).2.1.txBusy.length,
     (DRV_ETHMAC_LibDescriptorsPoolAdd s n .TYPE_TX false bud).2.2) =
      poolSpecStep (s.txFree.length, s.txBusy.length, bud) (PoolOp.add n) := by
  simp only [DRV_ETHMAC_LibDescriptorsPoolAdd, poolAddLists, poolSpecStep]
  by_cases hb : s.txBusy.isEmpty
  · have hbnil : s.txBusy = [] := by
      cases h2 : s.txBusy with
      | nil => rfl
      | cons a l => rw [h2] at hb; simp at hb
    have hb0 : s.txBusy.length = 0 := by rw [hbnil]; rfl
    cases bud with
    | zero => simp [hb, hb0, allocDcpt]
    | succ b => simp [hb, hb0, allocDcpt, poolAddLoop_spec]
  · have hb0 : ¬ s.txBusy.length = 0 := by
      cases h2 : s.txBusy with
      | nil => rw [h2] at hb; exact absurd rfl hb
      | cons a l => simp
    simp [hb, hb0, poolAddLoop_spec]

/-- One TX `PoolRemove` call realizes exactly one `poolSpecStep`. -/
theorem poolRemove_tx_lengths (s : MacState) (n : Nat) :
    ((DRV_ETHMAC_LibDescriptorsPoolRemove s n .TYPE_TX).2.txFree.length,
     (DRV_ETHMAC_LibDescriptorsPoolRemove s n .TYPE_TX).2.txBusy.length) =
      (s.txFree.length - min n s.txFree.length, s.txBusy.length) ∧
    (DRV_ETHMAC_LibDescriptorsPoolRemove s n .TYPE_TX).1 = min n s.txFree.length := by
  simp only [DRV_ETHMAC_LibDescriptorsPoolRemove, poolRemoveLoop_spec]
  refine ⟨?_, by simp⟩
  simp only [Prod.mk.injEq, List.length_drop]
  exact ⟨by omega, trivial⟩

/-- Running a TX pool-call sequence realizes the fold of `poolSpecStep` over
the `(free count, busy count, budget)` triple. -/
theorem runPoolOpsTx_foldl (ops : List PoolOp) : ∀ (s : MacState) (budget : Nat),
    ((runPoolOpsTx ops s budget).1.txFree.length,
     (runPoolOpsTx ops s budget).1.txBusy.length,
     (runPoolOpsTx ops s budget).2) =
      ops.foldl poolSpecStep (s.txFree.length, s.txBusy.length, budget) := by
  induction ops with
  | nil => intro s budget; simp [runPoolOpsTx]
  | cons op ops ih =>
    intro s budget
    cases op with
    | add n =>
      rw [runPoolOpsTx, List.foldl_cons, ih, ← poolAdd_tx_lengths s n budget]
    | remove n =>
      rw [runPoolOpsTx, List.foldl_cons, ih]
      have hr := poolRemove_tx_lengths s n
      rw [show poolSpecStep (s.txFree.length, s.txBusy.length, budget) (PoolOp.remove n)
            = (s.txFree.length - min n s.txFree.length, s.txBusy.length, budget) from rfl]
      have h1 : (DRV_ETHMAC_LibDescriptorsPoolRemove s n .TYPE_TX).2.txFree.length =
          s.txFree.length - min n s.txFree.length := by
        have := congrArg Prod.fst hr.1
        simpa using this
      have h2 : (DRV_ETHMAC_LibDescriptorsPoolRemove s n .TYPE_TX).2.txBusy.length =
          s.txBusy.length := by
        have := congrArg Prod.snd hr.1
        simpa using this
      have h3 : (DRV_ETHMAC_LibDescriptorsPoolRemove s n .TYPE_TX).2.rxBuffDecs =
          s.rxBuffDecs := by
        simp [DRV_ETHMAC_LibDescriptorsPoolRemove]
      rw [h1, h2]

/-- The `poolSpecStep` fold never creates counting mass: free count plus busy
count plus remaining budget never grows. -/
theorem poolSpecStep_foldl_sum (ops : List PoolOp) : ∀ (f b r : Nat),
    (ops.foldl poolSpecStep (f, b, r)).1 + (ops.foldl poolSpecStep (f, b, r)).2.1 +
      (ops.foldl poolSpecStep (f, b, r)).2.2 ≤ f + b + r := by
  induction ops with
  | nil => intro f b r; simp
  | cons op ops ih =>
    intro f b r
    rw [List.foldl_cons]
    cases op with
    | add n =>
      by_cases hb : b = 0
      · cases r with
        | zero =>
          refine le_trans ?_ (Nat.le_refl _)
          simpa [poolSpecStep, hb] using ih f b 0
        | succ r1 =>
          refine le_trans (by simpa [poolSpecStep, hb] using ih (f + min n r1) 1 (r1 - min n r1)) ?_
          omega
      · refine le_trans (by simpa [poolSpecStep, hb] using ih (f + min n r) b (r - min n r)) ?_
        omega
    | remove n =>
      refine le_trans (by simpa [poolSpecStep] using ih (f - min n f) b r) ?_
      omega

/-- C8 counterexample: the claim computes the free count of a call sequence
as (total created) minus (total requested removals), clamped at 0 once at the
end.  For the sequence add 2, remove 5, add 3 (ample allocator budget) the
adds create 2 and 3 nodes and the removal request is 5, so the claim predicts
max((2+3)-5, 0) = 0 free nodes - but the code clamps at each removal (only 2
nodes existed when 5 were requested) and ends with 3 free nodes. -/
theorem C8_counterexample :
    c8s1.1 = 2 ∧ c8s2.1 = 2 ∧ c8s3.1 = 3 ∧
    c8s3.2.1.txFree.length = 3 ∧ (c8s1.1 + c8s3.1) - 5 = 0 ∧
    c8s3.2.1.txFree.length ≠ (c8s1.1 + c8s3.1) - 5 := by
  decide

/-- C8 amended: over any TX pool-call sequence the free count evolves with
clamping applied at each call - each `PoolAdd` grows it by the number of
nodes actually created, each `PoolRemove` shrinks it by min(requested,
current count) - and free count plus busy count plus remaining allocator
budget never exceeds the initial budget (so the free list never exceeds the
number of nodes actually allocated).  Each `PoolAdd` returns exactly the
number of free-list nodes it created (the partial count on allocation
failure: min of request and remaining budget), and the first-ever call for a
direction allocates one extra node seated alone in the busy list as the
sentinel, not counted in the return value. -/
theorem C8_amended_pool_count_algebra (ops : List PoolOp) (budget : Nat) :
    ((runPoolOpsTx ops macState0 budget).1.txFree.length,
     (runPoolOpsTx ops macState0 budget).1.txBusy.length,
     (runPoolOpsTx ops macState0 budget).2) =
      ops.foldl poolSpecStep (0, 0, budget) ∧
    (runPoolOpsTx ops macState0 budget).1.txFree.length +
      (runPoolOpsTx ops macState0 budget).1.txBusy.length +
      (runPoolOpsTx ops macState0 budget).2 ≤ budget ∧
    (∀ (s : MacState) (n bud : Nat), s.txBusy ≠ [] →
      (DRV_ETHMAC_LibDescriptorsPoolAdd s n .TYPE_TX false bud).1 = min n bud ∧
      (DRV_ETHMAC_LibDescriptorsPoolAdd s n .TYPE_TX false bud).2.1.txFree.length =
        s.txFree.length + min n bud ∧
      (DRV_ETHMAC_LibDescriptorsPoolAdd s n .TYPE_TX false bud).2.1.txBusy = s.txBusy) ∧
    (∀ (s : MacState) (n b : Nat), s.txBusy = [] →
      (DRV_ETHMAC_LibDescriptorsPoolAdd s n .TYPE_TX false (b + 1)).1 = min n b ∧
      (DRV_ETHMAC_LibDescriptorsPoolAdd s n .TYPE_TX false (b + 1)).2.1.txBusy.length
        = 1 ∧
      (DRV_ETHMAC_LibDescriptorsPoolAdd s n .TYPE_TX false (b + 1)).2.1.txFree.length
        = s.txFree.length + min n b) ∧
    (∀ (s : MacState) (n : Nat),
      (DRV_ETHMAC_LibDescriptorsPoolRemove s n .TYPE_TX).1 = min n s.txFree.length ∧
      (DRV_ETHMAC_LibDescriptorsPoolRemove s n .TYPE_TX).2.txFree.length =
        s.txFree.length - n) := by
  refine ⟨?_, ?_, ?_, ?_, ?_⟩
  · have h := runPoolOpsTx_foldl ops macState0 budget
    simpa [macState0] using h
  · have h : ((runPoolOpsTx ops macState0 budget).1.txFree.length,
        (runPoolOpsTx ops macState0 budget).1.txBusy.length,
        (runPoolOpsTx ops macState0 budget).2) =
          ops.foldl poolSpecStep (0, 0, budget) := by
      simpa [macState0] using runPoolOpsTx_foldl ops macState0 budget
    have hsum := poolSpecStep_foldl_sum ops 0 0 budget
    have h1 : (runPoolOpsTx ops macState0 budget).1.txFree.length =
        (ops.foldl poolSpecStep (0, 0, budget)).1 := by rw [← h]
    have h2 : (runPoolOpsTx ops macState0 budget).1.txBusy.length =
        (ops.foldl poolSpecStep (0, 0, budget)).2.1 := by rw [← h]
    have h3 : (runPoolOpsTx ops macState0 budget).2 =
        (ops.foldl poolSpecStep (0, 0, budget)).2.2 := by rw [← h]
    omega
  · intro s n bud hb
    have hne : ¬ s.txBusy.isEmpty := by
      cases h2 : s.txBusy with
      | nil => exact absurd h2 hb
      | cons a l => simp
    refine ⟨?_, ?_, ?_⟩ <;>
      simp [DRV_ETHMAC_LibDescriptorsPoolAdd, poolAddLists, hne, poolAddLoop_spec]
  · intro s n b hb
    have hemp : s.txBusy.isEmpty := by rw [hb]; rfl
    refine ⟨?_, ?_, ?_⟩ <;>
      simp [DRV_ETHMAC_LibDescriptorsPoolAdd, poolAddLists, hemp, allocDcpt,
            poolAddLoop_spec]
  · intro s n
    have h := poolRemove_tx_lengths s n
    refine ⟨h.2, ?_⟩
    have := congrArg Prod.fst h.1
    simp only at this
    rw [this]
    omega

/-- Witness for C8 (amended) at concrete inputs: the fold equality on the
counterexample sequence, a `PoolAdd` on a provisioned state, a first-ever
`PoolAdd`, and a `PoolRemove`. -/
theorem C8_witness :
    (DRV_ETHMAC_LibDescriptorsPoolAdd cexState 4 .TYPE_TX false 10).1 = min 4 10 ∧
    (DRV_ETHMAC_LibDescriptorsPoolAdd cexState 4 .TYPE_TX false 10).2.1.txFree.length =
      cexState.txFree.length + min 4 10 ∧
    (DRV_ETHMAC_LibDescriptorsPoolAdd cexState 4 .TYPE_TX false 10).2.1.txBusy =
      cexState.txBusy ∧
    (DRV_ETHMAC_LibDescriptorsPoolAdd macState0 2 .TYPE_TX false (99 + 1)).1 = min 2 99 ∧
    (DRV_ETHMAC_LibDescriptorsPoolAdd macState0 2 .TYPE_TX false (99 + 1)).2.1.txBusy.length
      = 1 :=
  have h := C8_amended_pool_count_algebra [] 0
  have h3 := h.2.2.1 cexState 4 10 (by decide)
  have h4 := h.2.2.2.1 macState0 2 99 (by decide)
  ⟨h3.1, h3.2.1, h3.2.2, h4.1, h4.2.1⟩

/-- One TX buffer scheduling step conserves the total node count of the free
list plus the temporary schedule list, whatever its result. -/
theorem txSchedBuffer_len (free pList : List DcptNode) (pB nB : Nat) :
    (_EthTxSchedBuffer free pB nB pList).2.1.length +
      (_EthTxSchedBuffer free pB nB pList).2.2.length =
      free.length + pList.length := by
  unfold _EthTxSchedBuffer
  by_cases h : IS_KVA pB
  · simp only [h, Bool.not_true]
    cases free with
    | nil => simp
    | cons f0 rest => simp; omega
  · simp only [Bool.not_eq_true] at h
    simp [h]

/-- The TX packet-scheduling loop conserves the total node count of the free
list plus the temporary schedule list. -/
theorem txSendPacketLoop_len (pkt : List (Nat × Nat)) :
    ∀ (free pList : List DcptNode),
    (txSendPacketLoop pkt free pList).2.1.length +
      (txSendPacketLoop pkt free pList).2.2.length =
      free.length + pList.length := by
  induction pkt with
  | nil => intro free pList; simp [txSendPacketLoop]
  | cons pr rest ih =>
    intro free pList
    obtain ⟨pB, nB⟩ := pr
    rw [txSendPacketLoop]
    by_cases h0 : pB = 0 ∨ nB = 0
    · simp [h0]
    · rw [if_neg h0]
      rcases hs : _EthTxSchedBuffer free pB nB pList with ⟨res, free1, pList1⟩
      have hlen := txSchedBuffer_len free pList pB nB
      rw [hs] at hlen
      simp only at hlen
      cases res with
      | RES_OK => rw [ih]; exact hlen
      | RES_NO_DESCRIPTORS => exact hlen
      | RES_NO_PACKET => exact hlen
      | RES_PACKET_QUEUED => exact hlen
      | RES_USPACE_ERR => exact hlen
      | RES_RX_PKT_SPLIT_ERR => exact hlen

/-- Case analysis of the RX buffer-collection loop: a non-aborted exit means
full success; a `NoDescriptors` abort conserves the node count across the
free list and the collected list; a `UserSpaceAddressError` abort loses
exactly the one node removed for the offending buffer. -/
theorem rxBuffersAppendLoop_cases (stickyF unackF : Bool) :
    ∀ (bl : List Nat) (nB : Nat) (free acc : List DcptNode),
    ((rxBuffersAppendLoop stickyF unackF bl nB free acc).aborted = false →
      (rxBuffersAppendLoop stickyF unackF bl nB free acc).res = .RES_OK) ∧
    ((rxBuffersAppendLoop stickyF unackF bl nB free acc).res = .RES_NO_DESCRIPTORS →
      (rxBuffersAppendLoop stickyF unackF bl nB free acc).aborted = true ∧
      (rxBuffersAppendLoop stickyF unackF bl nB free acc).rxFree.length +
        (rxBuffersAppendLoop stickyF unackF bl nB free acc).newList.length =
        free.length + acc.length) ∧
    ((rxBuffersAppendLoop stickyF unackF bl nB free acc).res = .RES_USPACE_ERR →
      (rxBuffersAppendLoop stickyF unackF bl nB free acc).aborted = true ∧
      (rxBuffersAppendLoop stickyF unackF bl nB free acc).rxFree.length +
        (rxBuffersAppendLoop stickyF unackF bl nB free acc).newList.length + 1 =
        free.length + acc.length) := by
  intro bl
  induction bl with
  | nil =>
    intro nB free acc
    cases nB <;> simp [rxBuffersAppendLoop]
  | cons b bl ih =>
    intro nB free acc
    cases nB with
    | zero => simp [rxBuffersAppendLoop]
    | succ nRem =>
      by_cases hb0 : b = 0
      · simp [rxBuffersAppendLoop, hb0]
      · cases free with
        | nil => simp [rxBuffersAppendLoop, hb0]
        | cons f0 free1 =>
          by_cases hk : (!IS_KVA0 b && !IS_KVA b) = true
          · rw [rxBuffersAppendLoop]
            rw [if_neg hb0]
            simp only [hk, if_true]
            refine ⟨by simp, by simp, ?_⟩
            intro _
            simp
            omega
          · rw [rxBuffersAppendLoop]
            rw [if_neg hb0]
            simp only [hk, Bool.false_eq_true, if_false]
            refine ⟨fun h => (ih nRem free1 _).1 h, ?_, ?_⟩
            · intro hres
              obtain ⟨ha, hl⟩ := (ih nRem free1 _).2.1 hres
              refine ⟨ha, ?_⟩
              rw [hl]
              simp only [List.length_append, List.length_cons, List.length_nil]
              omega
            · intro hres
              obtain ⟨ha, hl⟩ := (ih nRem free1 _).2.2 hres
              refine ⟨ha, ?_⟩
              rw [hl]
              simp only [List.length_append, List.length_cons, List.length_nil]
              omega

/-- C1 counterexample: the claim says scheduling failures restore every
removed node and never leave a restored node attached to a stale buffer.  In
fact (i) the `UserSpaceAddressError` break of `DRV_ETHMAC_LibRxBuffersAppend`
happens before the removed node is added to the collection list, so that node
is in no list afterwards (here RX-free shrinks from 1 to 0 with RX-busy
unchanged), and (ii) a node restored by the `NoDescriptors` rollback of
`DRV_ETHMAC_LibTxSendPacket` still carries the buffer address written during
preparation (`pEDBuff = 0x1000` instead of 0). -/
theorem C1_counterexample :
    (DRV_ETHMAC_LibRxBuffersAppend cexState [0x1000] 1 false false).1 =
      .RES_USPACE_ERR ∧
    (DRV_ETHMAC_LibRxBuffersAppend cexState [0x1000] 1 false false).2.rxFree = [] ∧
    cexState.rxFree.length = 1 ∧
    (DRV_ETHMAC_LibRxBuffersAppend cexState [0x1000] 1 false false).2.rxBusy =
      cexState.rxBusy ∧
    (DRV_ETHMAC_LibTxSendPacket cexState [(0x80001000, 64), (0x80002000, 64)]).1 =
      .RES_NO_DESCRIPTORS ∧
    ((DRV_ETHMAC_LibTxSendPacket cexState
        [(0x80001000, 64), (0x80002000, 64)]).2.txFree.map (fun n => n.pEDBuff)) =
      [0x1000] := by
  decide

/-- C1 amended: on every `NoDescriptors` failure of TX send (buffer or
packet) and of the RX append, every node removed from the corresponding free
list is back in it when the call returns - the free list regains exactly its
node count and the busy list is untouched - although restoration does not
clear the fields written during preparation; on the `UserSpaceAddressError`
path of the RX append, the nodes removed for earlier buffers are restored
the same way but the node removed for the offending buffer is left in no
list: the free list ends one node short, the busy list untouched. -/
theorem C1_amended_failure_rollback :
    (∀ (s : MacState) (pPkt : List (Nat × Nat)),
      (DRV_ETHMAC_LibTxSendPacket s pPkt).1 = .RES_NO_DESCRIPTORS →
      (DRV_ETHMAC_LibTxSendPacket s pPkt).2.txFree.length = s.txFree.length ∧
      (DRV_ETHMAC_LibTxSendPacket s pPkt).2.txBusy = s.txBusy) ∧
    (∀ (s : MacState) (pB nB : Nat),
      (DRV_ETHMAC_LibTxSendBuffer s pB nB).1 = .RES_NO_DESCRIPTORS →
      (DRV_ETHMAC_LibTxSendBuffer s pB nB).2.txFree.length = s.txFree.length ∧
      (DRV_ETHMAC_LibTxSendBuffer s pB nB).2.txBusy = s.txBusy) ∧
    (∀ (s : MacState) (bl : List Nat) (n : Nat) (f1 f2 : Bool),
      (DRV_ETHMAC_LibRxBuffersAppend s bl n f1 f2).1 = .RES_NO_DESCRIPTORS →
      (DRV_ETHMAC_LibRxBuffersAppend s bl n f1 f2).2.rxFree.length =
        s.rxFree.length ∧
      (DRV_ETHMAC_LibRxBuffersAppend s bl n f1 f2).2.rxBusy = s.rxBusy) ∧
    (∀ (s : MacState) (bl : List Nat) (n : Nat) (f1 f2 : Bool),
      (DRV_ETHMAC_LibRxBuffersAppend s bl n f1 f2).1 = .RES_USPACE_ERR →
      (DRV_ETHMAC_LibRxBuffersAppend s bl n f1 f2).2.rxFree.length + 1 =
        s.rxFree.length ∧
      (DRV_ETHMAC_LibRxBuffersAppend s bl n f1 f2).2.rxBusy = s.rxBusy) := by
  have hrx : ∀ (s : MacState) (bl : List Nat) (n : Nat) (f1 f2 : Bool)
      (res0 : DRV_ETHMAC_RESULT),
      res0 = .RES_NO_DESCRIPTORS ∨ res0 = .RES_USPACE_ERR →
      (DRV_ETHMAC_LibRxBuffersAppend s bl n f1 f2).1 = res0 →
      ((DRV_ETHMAC_LibRxBuffersAppend s bl n f1 f2).2.rxFree.length +
         (if res0 = .RES_USPACE_ERR then 1 else 0) = s.rxFree.length ∧
       (DRV_ETHMAC_LibRxBuffersAppend s bl n f1 f2).2.rxBusy = s.rxBusy) := by
    intro s bl n f1 f2 res0 hres0 hres
    have hc := rxBuffersAppendLoop_cases f1 f2 bl (if n = 0 then 0x7fffffff else n)
      s.rxFree []
    by_cases hab : (rxBuffersAppendLoop f1 f2 bl (if n = 0 then 0x7fffffff else n)
        s.rxFree []).aborted
    · simp only [DRV_ETHMAC_LibRxBuffersAppend, hab, if_true] at hres ⊢
      subst hres
      rcases hres0 with h | h
      · obtain ⟨_, hl⟩ := hc.2.1 h
        rw [h]
        refine ⟨?_, by trivial⟩
        simp only [List.length_append, List.length_nil] at hl ⊢
        simp [hl]
      · obtain ⟨_, hl⟩ := hc.2.2 h
        rw [h]
        refine ⟨?_, by trivial⟩
        simp only [List.length_append, List.length_nil] at hl ⊢
        simp
        omega
    · have hok := hc.1 (by simpa using hab)
      exfalso
      simp only [DRV_ETHMAC_LibRxBuffersAppend, hab, Bool.false_eq_true, if_false] at hres
      by_cases hemp : (rxBuffersAppendLoop f1 f2 bl (if n = 0 then 0x7fffffff else n)
          s.rxFree []).newList.isEmpty = true
      · simp only [hemp] at hres
        simp at hres
        rcases hres0 with h | h <;> simp [← hres] at h
      · simp only [hemp] at hres
        simp at hres
        rcases hres0 with h | h <;> simp [← hres] at h
  refine ⟨?_, ?_, ?_, ?_⟩
  · intro s pPkt hres
    rcases hs : txSendPacketLoop pPkt s.txFree [] with ⟨res, free1, newL⟩
    have hlen := txSendPacketLoop_len pPkt s.txFree []
    rw [hs] at hlen
    simp only [List.length_nil, Nat.add_zero] at hlen
    simp only [DRV_ETHMAC_LibTxSendPacket, hs] at hres ⊢
    by_cases hOk : res = .RES_OK
    · rw [if_pos hOk] at hres
      simp at hres
      rw [hres] at hOk
      simp at hOk
    · rw [if_neg hOk] at hres ⊢
      by_cases hemp : newL.isEmpty
      · have hnil : newL = [] := by
          cases newL with
          | nil => rfl
          | cons a l => simp at hemp
        simp only [hemp, Bool.not_true, Bool.false_eq_true, if_false]
        refine ⟨?_, by trivial⟩
        rw [hnil] at hlen
        simpa using hlen
      · simp only [hemp, Bool.not_false, if_true]
        refine ⟨?_, by trivial⟩
        simpa using hlen
  · intro s pB nB hres
    rcases hs : _EthTxSchedBuffer s.txFree pB nB [] with ⟨res, free1, newL⟩
    have hlen := txSchedBuffer_len s.txFree [] pB nB
    rw [hs] at hlen
    simp only [List.length_nil, Nat.add_zero] at hlen
    simp only [DRV_ETHMAC_LibTxSendBuffer, hs] at hres ⊢
    by_cases hOk : res = .RES_OK
    · rw [if_pos hOk] at hres
      simp at hres
      rw [hres] at hOk
      simp at hOk
    · rw [if_neg hOk] at hres ⊢
      by_cases hemp : newL.isEmpty
      · have hnil : newL = [] := by
          cases newL with
          | nil => rfl
          | cons a l => simp at hemp
        simp only [hemp, Bool.not_true, Bool.false_eq_true, if_false]
        refine ⟨?_, by trivial⟩
        rw [hnil] at hlen
        simpa using hlen
      · simp only [hemp, Bool.not_false, if_true]
        refine ⟨?_, by trivial⟩
        simpa using hlen
  · intro s bl n f1 f2 hres
    have h := hrx s bl n f1 f2 .RES_NO_DESCRIPTORS (Or.inl rfl) hres
    refine ⟨?_, h.2⟩
    have h1 := h.1
    simp at h1
    exact h1
  · intro s bl n f1 f2 hres
    have h := hrx s bl n f1 f2 .RES_USPACE_ERR (Or.inr rfl) hres
    refine ⟨?_, h.2⟩
    have h1 := h.1
    simpa using h1

/-- Witness for C1 (amended) at a concrete input: a TX packet send on an
exhausted pool fails with `NoDescriptors`, leaving the (empty) free list and
the busy list as they were. -/
theorem C1_witness :
    (DRV_ETHMAC_LibTxSendPacket macState0 [(0x80001000, 10)]).2.txFree.length =
      macState0.txFree.length ∧
    (DRV_ETHMAC_LibTxSendPacket macState0 [(0x80001000, 10)]).2.txBusy =
      macState0.txBusy :=
  C1_amended_failure_rollback.1 macState0 [(0x80001000, 10)] (by decide)

/-- The inner GetPacket walk over a packet whose EOP closes it: with an
output chain of `slots` slots and `pnBuffs` provided, it reports the true
fragment count, declares the packet reported only when every fragment fit,
and produces a split error exactly otherwise. -/
theorem rxGetPacketWalk_spec (slots : Nat) :
    ∀ (fr : List DcptNode) (lastN : DcptNode) (after : List DcptNode)
      (nB rp : Nat) (filled : List (Nat × Nat)),
    (∀ n ∈ fr, n.hdr.EOP = false) → lastN.hdr.EOP = true → rp ≤ slots →
    ∃ filled1,
      rxGetPacketWalk true slots true (fr ++ lastN :: after) nB rp filled =
        ((if min slots (rp + (fr.length + 1)) = nB + (fr.length + 1)
          then DRV_ETHMAC_RESULT.RES_OK else .RES_RX_PKT_SPLIT_ERR),
         some (nB + (fr.length + 1)),
         decide (min slots (rp + (fr.length + 1)) = nB + (fr.length + 1)),
         filled1) := by
  intro fr
  induction fr with
  | nil =>
    intro lastN after nB rp filled _ hlast hrp
    refine ⟨(if decide (rp < slots) = true
             then filled ++ [((if lastN.hdr.kv0 then PA_TO_KVA0 lastN.pEDBuff
                               else PA_TO_KVA1 lastN.pEDBuff), lastN.hdr.bCount)]
             else filled), ?_⟩
    rw [List.nil_append, rxGetPacketWalk]
    simp only [hlast, Bool.or_true, Bool.not_true, Bool.false_eq_true, if_false,
      if_true, Bool.true_and, List.length_nil, Nat.zero_add]
    by_cases hlt : rp < slots
    · have hmin : min slots (rp + 1) = rp + 1 := by omega
      have hd : decide (rp < slots) = true := by simp [hlt]
      simp only [hd, if_true, hmin]
      by_cases he : rp + 1 = nB + 1 <;> simp [he]
    · have hmin : min slots (rp + 1) = rp := by omega
      have hd : decide (rp < slots) = false := by simp [hlt]
      simp only [hd, Bool.false_eq_true, if_false, hmin]
      by_cases he : rp = nB + 1 <;> simp [he]
  | cons x fr ih =>
    intro lastN after nB rp filled hfr hlast hrp
    have hx : x.hdr.EOP = false := hfr x (by simp)
    rw [List.cons_append, rxGetPacketWalk]
    simp only [Bool.or_true, Bool.not_true, Bool.false_eq_true, if_false, hx,
      Bool.true_and]
    set rp1 := if decide (rp < slots) = true then rp + 1 else rp with hrp1def
    have hrp1min : rp1 = min slots (rp + 1) := by
      rw [hrp1def]
      by_cases hlt : rp < slots <;> simp [hlt] <;> omega
    have hrp1le : rp1 ≤ slots := by rw [hrp1min]; omega
    obtain ⟨f1, hrec⟩ := ih lastN after (nB + 1) rp1
      (if decide (rp < slots) = true
       then filled ++ [((if x.hdr.kv0 then PA_TO_KVA0 x.pEDBuff
                         else PA_TO_KVA1 x.pEDBuff), x.hdr.bCount)]
       else filled)
      (fun n hn => hfr n (by simp [hn])) hlast hrp1le
    refine ⟨f1, ?_⟩
    rw [hrec]
    have e1 : min slots (rp1 + (fr.length + 1)) =
        min slots (rp + ((x :: fr).length + 1)) := by
      rw [hrp1min]
      simp only [List.length_cons]
      omega
    have e2 : nB + 1 + (fr.length + 1) = nB + ((x :: fr).length + 1) := by
      simp only [List.length_cons]
      omega
    rw [e1, e2]

/-- The outer GetPacket scan skips completed nodes that do not start an
unreported packet, keeping them in place. -/
theorem rxGetPacketLoop_skip (hk : Bool) (sl : Nat) (hp : Bool) :
    ∀ (pre rest : List DcptNode),
    (∀ n ∈ pre, n.hdr.EOWN = false ∧ (n.hdr.SOP = false ∨ n.hdr.rx_wack = true)) →
    rxGetPacketLoop hk sl hp (pre ++ rest) =
      ((rxGetPacketLoop hk sl hp rest).1, (rxGetPacketLoop hk sl hp rest).2.1,
       (rxGetPacketLoop hk sl hp rest).2.2.1, (rxGetPacketLoop hk sl hp rest).2.2.2.1,
       pre ++ (rxGetPacketLoop hk sl hp rest).2.2.2.2) := by
  intro pre
  induction pre with
  | nil => intro rest _; simp
  | cons p pre ih =>
    intro rest hpre
    obtain ⟨hE, hS⟩ := hpre p (by simp)
    have hcond : (p.hdr.SOP && !p.hdr.rx_wack) = false := by
      rcases hS with h | h <;> simp [h]
    rw [List.cons_append, rxGetPacketLoop]
    rw [if_neg (by simp [hE]), if_neg (by simp [hcond])]
    rw [ih rest (fun n hn => hpre n (by simp [hn]))]
    simp

/-- C5: when the caller-supplied output chain has fewer slots than the
received packet's true fragment count (and `pnBuffs` is provided),
`DRV_ETHMAC_LibRxGetPacket` returns `RxPacketSplitError`, still reports the
true total fragment count through `pnBuffs`, and leaves the machine state -
in particular the packet's `rx_wack` reported flag - unchanged, so the
packet remains retrievable by a later GetPacket call. -/
theorem C5_rxGetPacket_split_error (s : MacState) (pre mid post : List DcptNode)
    (p lastN : DcptNode) (slots : Nat)
    (hbusy : s.rxBusy = pre ++ p :: (mid ++ lastN :: post))
    (hpre : ∀ n ∈ pre, n.hdr.EOWN = false ∧ (n.hdr.SOP = false ∨ n.hdr.rx_wack = true))
    (hp : p.hdr.EOWN = false ∧ p.hdr.SOP = true ∧ p.hdr.rx_wack = false ∧
          p.hdr.EOP = false)
    (hmid : ∀ n ∈ mid, n.hdr.EOP = false)
    (hlast : lastN.hdr.EOP = true)
    (hslots : slots < mid.length + 2) :
    (DRV_ETHMAC_LibRxGetPacket s (some slots) true).res = .RES_RX_PKT_SPLIT_ERR ∧
    (DRV_ETHMAC_LibRxGetPacket s (some slots) true).nBuffsOut =
      some (mid.length + 2) ∧
    (DRV_ETHMAC_LibRxGetPacket s (some slots) true).state = s := by
  obtain ⟨hE, hS, hW, hEOP⟩ := hp
  have hfr : ∀ n ∈ p :: mid, n.hdr.EOP = false := by
    intro n hn
    rcases List.mem_cons.mp hn with rfl | hm
    · exact hEOP
    · exact hmid n hm
  obtain ⟨f1, hwalk⟩ :=
    rxGetPacketWalk_spec slots (p :: mid) lastN post 0 0 [] hfr hlast (Nat.zero_le _)
  have hminv : min slots (0 + ((p :: mid).length + 1)) = slots := by
    simp only [List.length_cons]
    omega
  have hne : ¬ (min slots (0 + ((p :: mid).length + 1)) =
      0 + ((p :: mid).length + 1)) := by
    simp only [List.length_cons]
    omega
  simp only [DRV_ETHMAC_LibRxGetPacket, Option.isSome_some, Option.getD_some]
  rw [hbusy, rxGetPacketLoop_skip true slots true pre _ hpre]
  rw [rxGetPacketLoop]
  rw [if_neg (by simp [hE]), if_pos (by simp [hS, hW])]
  rw [show p :: (mid ++ lastN :: post) = (p :: mid) ++ lastN :: post from rfl, hwalk]
  simp only [if_neg hne, decide_eq_true_eq, hne, decide_eq_false hne]
  refine ⟨rfl, ?_, ?_⟩
  · simp only [List.length_cons]
    have : 0 + (mid.length + 1 + 1) = mid.length + 2 := by omega
    rw [this]
  · simp only [Bool.false_eq_true, if_false]
    rw [← hbusy]

/-- Witness for C5 at a concrete input: a completed two-fragment packet
retrieved into a one-slot chain. -/
theorem C5_witness :
    (DRV_ETHMAC_LibRxGetPacket wRxState (some 1) true).res = .RES_RX_PKT_SPLIT_ERR ∧
    (DRV_ETHMAC_LibRxGetPacket wRxState (some 1) true).nBuffsOut =
      some (([] : List DcptNode).length + 2) ∧
    (DRV_ETHMAC_LibRxGetPacket wRxState (some 1) true).state = wRxState :=
  C5_rxGetPacket_split_error wRxState [] [] [wSentinel] wRxP1 wRxP2 1
    rfl (by decide) (by decide) (by decide) (by decide) (by decide)

/-- The acknowledge scan skips nodes that do not start a matching packet,
keeping them in order. -/
theorem ethGetAckedGo_skip (pPkt : Option Nat) :
    ∀ (pre rest kept ack : List DcptNode) (nAcks : Nat) (found : Bool),
    (∀ n ∈ pre,
      (n.hdr.SOP && (pPkt.isNone || n.pEDBuff == KVA_TO_PA (pPkt.getD 0))) = false) →
    ethGetAckedGo pPkt false (pre ++ rest) kept ack nAcks found =
      ethGetAckedGo pPkt false rest (kept ++ pre) ack nAcks found := by
  intro pre
  induction pre with
  | nil => intro rest kept ack nAcks found _; simp
  | cons p pre ih =>
    intro rest kept ack nAcks found hpre
    have hp := hpre p (by simp)
    rw [List.cons_append]
    simp only [ethGetAckedGo, hp, Bool.false_eq_true, if_false]
    rw [ih rest (kept ++ [p]) ack nAcks found (fun n hn => hpre n (by simp [hn]))]
    rw [List.append_assoc]
    rfl

/-- The acknowledge scan's detaching mode moves nodes to the ack list through
the first EOP node; for a specific searched buffer the scan then stops. -/
theorem ethGetAckedGo_detach (pb : Nat) :
    ∀ (mid : List DcptNode) (lastN : DcptNode) (post kept ack : List DcptNode)
      (nAcks : Nat) (found : Bool),
    (∀ n ∈ mid, n.hdr.EOP = false) → lastN.hdr.EOP = true →
    ethGetAckedGo (some pb) true (mid ++ lastN :: post) kept ack nAcks found =
      ⟨kept ++ post, ack ++ mid ++ [lastN], nAcks + 1, found⟩ := by
  intro mid
  induction mid with
  | nil =>
    intro lastN post kept ack nAcks found _ hlast
    rw [List.nil_append]
    simp only [ethGetAckedGo, hlast, if_true, Option.isSome_some]
    simp
  | cons x mid ih =>
    intro lastN post kept ack nAcks found hmid hlast
    have hx : x.hdr.EOP = false := hmid x (by simp)
    rw [List.cons_append]
    simp only [ethGetAckedGo, hx, Bool.false_eq_true, if_false]
    rw [ih lastN post kept (ack ++ [x]) nAcks found
      (fun n hn => hmid n (by simp [hn])) hlast]
    simp [List.append_assoc]

/-- The ack-processing loop of `_EthRxAckBuffer` in closed form: non-sticky
nodes (buffer cleared) are appended to the free list in order, sticky nodes
(flags cleared, hardware-owned) are collected in the sticky list in order,
and the counter grows once per non-sticky node with `rx_nack` clear. -/
theorem rxAckProcessLoop_spec :
    ∀ (ackL free stickyL : List DcptNode) (decs : Nat),
    rxAckProcessLoop ackL free stickyL decs =
      (free ++ ackL.filterMap (fun n => if n.hdr.sticky then none
                                        else some { n with pEDBuff := 0 }),
       stickyL ++ ackL.filterMap (fun n => if n.hdr.sticky then some (stickyRequeue n)
                                           else none),
       decs + ackL.countP (fun n => !n.hdr.sticky && !n.hdr.rx_nack)) := by
  intro ackL
  induction ackL with
  | nil => intro free stickyL decs; simp [rxAckProcessLoop]
  | cons a l ih =>
    intro free stickyL decs
    by_cases hst : a.hdr.sticky
    · simp only [rxAckProcessLoop, hst, if_true, ih, List.filterMap_cons,
        List.countP_cons]
      simp [hst]
    · simp only [rxAckProcessLoop, hst, Bool.false_eq_true, if_false, ih,
        List.filterMap_cons, List.countP_cons]
      cases hn : a.hdr.rx_nack <;> simp [hst, hn] <;> omega

/-- Counting `rx_nack`-clear nodes among the re-queued sticky nodes equals
counting sticky `rx_nack`-clear nodes of the original list. -/
theorem countP_filterMap_stickyRequeue :
    ∀ (l : List DcptNode),
    (l.filterMap (fun n => if n.hdr.sticky then some (stickyRequeue n)
                           else none)).countP (fun n => !n.hdr.rx_nack) =
      l.countP (fun n => n.hdr.sticky && !n.hdr.rx_nack) := by
  intro l
  induction l with
  | nil => rfl
  | cons a l ih =>
    by_cases hst : a.hdr.sticky
    · simp only [List.filterMap_cons, hst, if_true, List.countP_cons, ih]
      have hnk : (stickyRequeue a).hdr.rx_nack = a.hdr.rx_nack := rfl
      cases hn : a.hdr.rx_nack <;> simp [hnk, hn, hst]
    · simp only [List.filterMap_cons, hst, Bool.false_eq_true, if_false,
        List.countP_cons, ih]
      simp [hst]

/-- C6: acknowledging via `DRV_ETHMAC_LibRxAcknowledgeBuffer` (buffer `pb`):
(A) for a completed, reported packet at the front of RX-busy, the call
returns `Ok`; every detached non-sticky node has its buffer attachment
cleared and is returned to RX-free in order; the pending-buffer counter is
decremented once per non-sticky node with `rx_nack` clear (plus once per
re-queued sticky node with `rx_nack` clear, issued by the re-append
protocol); every detached sticky node - start/end-of-packet and reported
flags cleared, ownership flipped back to hardware, buffer kept - is
re-appended to RX-busy through the append protocol;
(B) a matching but still hardware-owned packet yields `PacketQueued` with the
state unchanged; (C) no matching packet yields `NoPacket` with the state
unchanged. -/
theorem C6_rxAcknowledge_spec (pb : Nat) :
    (∀ (s : MacState) (pre mid post : List DcptNode) (lastN : DcptNode),
      s.rxBusy = pre ++ (mid ++ lastN :: post) →
      post ≠ [] →
      (∀ n ∈ pre, (n.hdr.SOP && (n.pEDBuff == KVA_TO_PA pb)) = false) →
      (∀ h, (mid ++ [lastN]).head? = some h →
        h.hdr.SOP = true ∧ h.pEDBuff = KVA_TO_PA pb ∧ h.hdr.EOWN = false ∧
        h.hdr.rx_wack = true) →
      (∀ n ∈ mid, n.hdr.EOP = false) →
      lastN.hdr.EOP = true →
      (DRV_ETHMAC_LibRxAcknowledgeBuffer s (some pb)).1 = .RES_OK ∧
      (DRV_ETHMAC_LibRxAcknowledgeBuffer s (some pb)).2.rxFree =
        s.rxFree ++ (mid ++ [lastN]).filterMap
          (fun n => if n.hdr.sticky then none else some { n with pEDBuff := 0 }) ∧
      (DRV_ETHMAC_LibRxAcknowledgeBuffer s (some pb)).2.rxBuffDecs =
        s.rxBuffDecs +
          (mid ++ [lastN]).countP (fun n => !n.hdr.sticky && !n.hdr.rx_nack) +
          (mid ++ [lastN]).countP (fun n => n.hdr.sticky && !n.hdr.rx_nack) ∧
      ((mid ++ [lastN]).filterMap
          (fun n => if n.hdr.sticky then some (stickyRequeue n) else none) = [] →
        (DRV_ETHMAC_LibRxAcknowledgeBuffer s (some pb)).2.rxBusy = pre ++ post) ∧
      (∀ sh st, (mid ++ [lastN]).filterMap
          (fun n => if n.hdr.sticky then some (stickyRequeue n) else none)
            = sh :: st →
        (DRV_ETHMAC_LibRxAcknowledgeBuffer s (some pb)).2.rxBusy =
          (pre ++ post).dropLast
            ++ { sh with hdr := { sh.hdr with EOWN := true } }
            :: (st ++ [{ sh with hdr := zeroHdr, pEDBuff := 0 }]))) ∧
    (∀ (s : MacState) (pre rest2 : List DcptNode) (q : DcptNode),
      s.rxBusy = pre ++ q :: rest2 →
      (∀ n ∈ pre, (n.hdr.SOP && (n.pEDBuff == KVA_TO_PA pb)) = false) →
      q.hdr.SOP = true → q.pEDBuff = KVA_TO_PA pb → q.hdr.EOWN = true →
      (DRV_ETHMAC_LibRxAcknowledgeBuffer s (some pb)).1 = .RES_PACKET_QUEUED ∧
      (DRV_ETHMAC_LibRxAcknowledgeBuffer s (some pb)).2 = s) ∧
    (∀ (s : MacState),
      (∀ n ∈ s.rxBusy, (n.hdr.SOP && (n.pEDBuff == KVA_TO_PA pb)) = false) →
      (DRV_ETHMAC_LibRxAcknowledgeBuffer s (some pb)).1 = .RES_NO_PACKET ∧
      (DRV_ETHMAC_LibRxAcknowledgeBuffer s (some pb)).2 = s) := by
  refine ⟨?_, ?_, ?_⟩
  · intro s pre mid post lastN hbusy hpost hpre hfirst hmid hlast
    have hgo : ethGetAckedGo (some pb) false s.rxBusy [] [] 0 false =
        ⟨pre ++ post, mid ++ [lastN], 1, true⟩ := by
      rw [hbusy, ethGetAckedGo_skip (some pb) pre _ [] [] 0 false
        (fun n hn => by simpa using hpre n hn)]
      cases mid with
      | nil =>
        obtain ⟨hS, hB, hE, _⟩ := hfirst lastN (by simp)
        rw [List.nil_append]
        simp [ethGetAckedGo, hS, hB, hE, hlast]
      | cons m0 mid2 =>
        obtain ⟨hS, hB, hE, _⟩ := hfirst m0 (by simp)
        have hm0 : m0.hdr.EOP = false := hmid m0 (by simp)
        rw [show ((m0 :: mid2) ++ lastN :: post : List DcptNode)
            = m0 :: (mid2 ++ lastN :: post) from rfl]
        simp only [ethGetAckedGo, hS, hB, hE, hm0, Option.isNone_some,
          Option.getD_some, Bool.false_or, beq_self_eq_true, Bool.and_true,
          if_true, Bool.false_eq_true, if_false, List.nil_append]
        rw [ethGetAckedGo_detach pb mid2 lastN post pre [m0] 0 true
          (fun n hn => hmid n (by simp [hn])) hlast]
        simp
    have hack : _EthGetAckedPacket (some pb) s.rxBusy =
        (.RES_OK, pre ++ post, mid ++ [lastN]) := by
      simp only [_EthGetAckedPacket, hgo]
      simp
    have hppne : (pre ++ post : List DcptNode) ≠ [] := by
      intro hcontra
      exact hpost (List.append_eq_nil.mp hcontra).2
    simp only [DRV_ETHMAC_LibRxAcknowledgeBuffer, _EthRxAckBuffer, hack]
    rw [rxAckProcessLoop_spec]
    simp only [List.nil_append]
    by_cases hemp : (mid ++ [lastN]).filterMap
        (fun n => if n.hdr.sticky then some (stickyRequeue n) else none) = []
    · have h2 : (mid ++ [lastN]).countP
          (fun n => n.hdr.sticky && !n.hdr.rx_nack) = 0 := by
        rw [← countP_filterMap_stickyRequeue, hemp]
        rfl
      simp only [hemp, List.isEmpty_nil, if_true]
      refine ⟨by trivial, by trivial, by omega, fun _ => by trivial, ?_⟩
      intro sh st hcontra
      exact absurd hcontra (by simp)
    · rcases hF : (mid ++ [lastN]).filterMap
          (fun n => if n.hdr.sticky then some (stickyRequeue n) else none) with
        _ | ⟨sh, st⟩
      · exact absurd hF hemp
      · simp only [hF, List.isEmpty_cons, Bool.false_eq_true, if_false]
        rw [ethAppendBusyList_eq (pre ++ post) sh st true _ hppne]
        have hdecs : (sh :: st).countP (fun n => !n.hdr.rx_nack) =
            (mid ++ [lastN]).countP (fun n => n.hdr.sticky && !n.hdr.rx_nack) := by
          rw [← hF, countP_filterMap_stickyRequeue]
        refine ⟨by trivial, by trivial, ?_, ?_, ?_⟩
        · simp [hdecs]
        · intro hcontra
          exact absurd hcontra (by simp)
        · intro sh2 st2 heq
          injection heq with h1 h2
          subst h1
          subst h2
          rfl
  · intro s pre rest2 q hbusy hpre hS hB hE
    have hgo : ethGetAckedGo (some pb) false s.rxBusy [] [] 0 false =
        ⟨pre ++ q :: rest2, [], 0, true⟩ := by
      rw [hbusy, ethGetAckedGo_skip (some pb) pre _ [] [] 0 false
        (fun n hn => by simpa using hpre n hn)]
      simp [ethGetAckedGo, hS, hB, hE]
    have hack : _EthGetAckedPacket (some pb) s.rxBusy =
        (.RES_PACKET_QUEUED, pre ++ q :: rest2, []) := by
      simp only [_EthGetAckedPacket, hgo]
      simp
    simp only [DRV_ETHMAC_LibRxAcknowledgeBuffer, _EthRxAckBuffer, hack]
    rw [rxAckProcessLoop_spec]
    simp only [List.nil_append, List.filterMap_nil, List.countP_nil,
      List.append_nil, Nat.add_zero, List.isEmpty_nil, if_true]
    rw [← hbusy]
    exact ⟨by trivial, by trivial⟩
  · intro s hall
    have hgo : ethGetAckedGo (some pb) false s.rxBusy [] [] 0 false =
        ⟨s.rxBusy, [], 0, false⟩ := by
      have h := ethGetAckedGo_skip (some pb) s.rxBusy [] [] [] 0 false
        (fun n hn => by simpa using hall n hn)
      rw [List.append_nil] at h
      rw [h]
      simp [ethGetAckedGo]
    have hack : _EthGetAckedPacket (some pb) s.rxBusy =
        (.RES_NO_PACKET, s.rxBusy, []) := by
      simp only [_EthGetAckedPacket, hgo]
      simp
    simp only [DRV_ETHMAC_LibRxAcknowledgeBuffer, _EthRxAckBuffer, hack]
    rw [rxAckProcessLoop_spec]
    simp only [List.nil_append, List.filterMap_nil, List.countP_nil,
      List.append_nil, Nat.add_zero, List.isEmpty_nil, if_true]
    exact ⟨by trivial, by trivial⟩

/-- Witness for C6 at a concrete input: the spec's sticky round-trip
scenario - a completed, reported single-fragment sticky packet ahead of the
sentinel is acknowledged with `Ok`, and the node is re-queued into RX-busy
hardware-owned with cleared flags while RX-free keeps its one spare node. -/
theorem C6_witness :
    (DRV_ETHMAC_LibRxAcknowledgeBuffer wAckState (some 0xA0000300)).1 = .RES_OK ∧
    (DRV_ETHMAC_LibRxAcknowledgeBuffer wAckState (some 0xA0000300)).2.rxFree =
      wAckState.rxFree ++ (([] : List DcptNode) ++ [wStickyPkt]).filterMap
        (fun n => if n.hdr.sticky then none else some { n with pEDBuff := 0 }) :=
  have h := (C6_rxAcknowledge_spec 0xA0000300).1 wAckState [] [] [wSentinel]
    wStickyPkt rfl (by decide) (by decide) (by decide) (by decide) (by decide)
  ⟨h.1, h.2.1⟩

end EthMacLib
